import Mathlib

/-!
A shallow embedding of the index-generation pipeline of
`src/generate-index.py` (repository MetaCreativeDocs), with theorems settling
the frozen claims about it.

Modelling conventions:
* Environment effects are explicit parameters: the scanned directory is a list
  of `FileEntry` (name, readable content, mtime), `datetime.now()` is a
  `DateTime` value (a `clock` indexed by successive calls inside the rename
  pass, and a separate `now` for the rendered footer), and reading a file
  yields `Option String` (`none` models a read failure, which the script
  catches).  `os.path.getmtime` composed with `datetime.fromtimestamp` is the
  per-file `mtime : DateTime` oracle.  The `docs` directory is taken to
  exist (the script's `docs_path.exists()` guards merely skip work when it
  does not, and no claim concerns that case).
* Python strings are `String` / `List Char`; Python compares strings by code
  points, embedded as `strLtB` on `Char.toNat`.
* Python's regex `\d` matches any Unicode decimal digit; every filename that
  reaches the date/sort-key extractors in the pipeline is ASCII (the
  sanitization pass renames any file whose stem is not pure ASCII before
  collection), so `\d` is embedded as the ASCII digit test `Char.isDigit`.
* `json.load` is not re-implemented: the tag file is given as
  `Option (Except String (List (String × List String)))` — absent, a parse
  error, or the parsed JSON object — and `load_tags` forwards the parse
  result, as the script lets a `json` exception propagate uncaught.
-/

namespace GenIndex

/-! ### Decimal rendering (Python `str(int)` and `%0Nd` formatting) -/

/-- Structural worker for `natDigits`: `fuel > n` always suffices, so the
zero-fuel fallback is unreachable. -/
def natDigitsAux : Nat → Nat → List Char
  | 0, _ => []
  | fuel + 1, n =>
    if n < 10 then [Char.ofNat (48 + n)]
    else natDigitsAux fuel (n / 10) ++ [Char.ofNat (48 + n % 10)]

/-- Decimal digits of `n`, most significant first (as in Python's `str`). -/
def natDigits (n : Nat) : List Char := natDigitsAux (n + 1) n

/-- Python `str(n)` for a natural number. -/
def natRepr (n : Nat) : String := String.mk (natDigits n)

/-- Python `"%0Nd" % n` / `f"{n:0Nd}"`: left-pad the decimal digits with `'0'`
to width `w` (never truncates). -/
def padZero (w n : Nat) : String :=
  String.mk (List.replicate (w - (natDigits n).length) '0' ++ natDigits n)

/-! ### Dates and times -/

/-- A wall-clock instant as the script uses it (`datetime`), to one-second
granularity; the script never renders sub-second fields. -/
structure DateTime where
  year : Nat
  month : Nat
  day : Nat
  hour : Nat
  minute : Nat
  second : Nat
deriving DecidableEq

/-- `strftime('%Y%m%d-%H%M%S')`, the sanitizer's timestamp (line 35). -/
def fmtTimestamp (t : DateTime) : String :=
  padZero 4 t.year ++ padZero 2 t.month ++ padZero 2 t.day ++ "-" ++
    padZero 2 t.hour ++ padZero 2 t.minute ++ padZero 2 t.second

/-- `strftime('%Y-%m-%d')`, the per-document display date (line 176). -/
def fmtDateStr (t : DateTime) : String :=
  padZero 4 t.year ++ "-" ++ padZero 2 t.month ++ "-" ++ padZero 2 t.day

/-- `strftime('%Y-%m-%d %H:%M')`, the footer timestamp (line 244). -/
def fmtFooter (t : DateTime) : String :=
  fmtDateStr t ++ " " ++ padZero 2 t.hour ++ ":" ++ padZero 2 t.minute

/-! ### `pathlib` name splitting -/

/-- Index of the last `'.'` in `cs` (Python `str.rfind('.')` restricted to a
found result). -/
def rfindDot : List Char → Option Nat
  | [] => none
  | c :: rest =>
    match rfindDot rest with
    | some i => some (i + 1)
    | none => if c = '.' then some 0 else none

/-- `PurePath(name).suffix`: the part of the final component from its last
dot, provided that dot is neither the first nor the last character. -/
def pathSuffix (name : String) : String :=
  match rfindDot name.data with
  | some i =>
    if 0 < i ∧ i + 1 < name.data.length then String.mk (name.data.drop i) else ""
  | none => ""

/-- `PurePath(name).stem`: the final component without its `pathSuffix`. -/
def pathStem (name : String) : String :=
  match rfindDot name.data with
  | some i =>
    if 0 < i ∧ i + 1 < name.data.length then String.mk (name.data.take i) else name
  | none => name

/-- `pathlib` glob pattern `*.html` (fnmatch does not special-case dots). -/
def endsWithHtml (name : String) : Bool :=
  decide (5 ≤ name.data.length) && decide (name.data.drop (name.data.length - 5) = ".html".data)

/-! ### Filename sanitizer (`sanitize_filename`, lines 21-37) -/

/-- `str.encode('ascii')` succeeds exactly on code points below 128. -/
def isAsciiChar (c : Char) : Bool := c.toNat ≤ 127

/-- `sanitize_filename`: `none` = "リネーム不要" (no rename needed); otherwise
the replacement `doc-<timestamp><original suffix>`.  `now` is the value of
`datetime.now()` at the call. -/
def sanitize_filename (now : DateTime) (filename : String) : Option String :=
  let stem := pathStem filename
  let ext := pathSuffix filename
  if stem.data.all isAsciiChar then none
  else some ("doc-" ++ fmtTimestamp now ++ ext)

/-! ### Collision-avoiding rename (`rename_japanese_files`, lines 39-57) -/

/-- The candidate `f"{stem}-{counter}{ext}"` of the collision loop. -/
def candName (stem ext : String) (k : Nat) : String :=
  stem ++ "-" ++ natRepr k ++ ext

/-- The `while new_path.exists()` scan, counting from `k`; `fuel` bounds the
search (`existing.length + 1` suffices: the candidates are pairwise distinct,
so some candidate in the window is free, and the zero-fuel fallback is never
reached). -/
def findFreeAux (existing : List String) (stem ext : String) : Nat → Nat → String
  | k, 0 => candName stem ext k
  | k, fuel + 1 =>
    if candName stem ext k ∈ existing then findFreeAux existing stem ext (k + 1) fuel
    else candName stem ext k

/-- Lines 46-52: keep `new_name` if its path is free, else append `-1`, `-2`, …
(`stem`/`ext` are recomputed from `new_name`, as in the source). -/
def resolveCollision (existing : List String) (new_name : String) : String :=
  if new_name ∈ existing then
    findFreeAux existing (pathStem new_name) (pathSuffix new_name) 1 (existing.length + 1)
  else new_name

/-- One file of the scanned directory: its name, its readable content
(`none` = the read raises), and its mtime as a calendar instant. -/
structure FileEntry where
  name : String
  content : Option String
  mtime : DateTime
deriving DecidableEq

/-- `html_file.rename(new_path)`: the entry keeps content and mtime, only the
name changes. -/
def renameEntry (fs : List FileEntry) (old new : String) : List FileEntry :=
  fs.map fun e => if e.name = old then { e with name := new } else e

/-- The loop body of `rename_japanese_files` over the glob snapshot:
`t` counts the `datetime.now()` calls made so far (one per non-ASCII stem),
`acc` the `(old, new)` pairs. -/
def renameGo (clock : Nat → DateTime) :
    List String → List FileEntry → Nat → List (String × String) →
      List (String × String) × List FileEntry
  | [], fs, _, acc => (acc.reverse, fs)
  | n :: rest, fs, t, acc =>
    match sanitize_filename (clock t) n with
    | none => renameGo clock rest fs t acc
    | some new_name =>
      let target := resolveCollision (fs.map (·.name)) new_name
      renameGo clock rest (renameEntry fs n target) (t + 1) ((n, target) :: acc)

/-- `rename_japanese_files`: iterate over a snapshot (`list(docs_path.glob("*.html"))`)
of the html names, renaming each whose stem is not pure ASCII; returns the
`(old, new)` pairs and the directory afterwards. -/
def rename_japanese_files (clock : Nat → DateTime) (fs : List FileEntry) :
    List (String × String) × List FileEntry :=
  renameGo clock ((fs.filter fun e => endsWithHtml e.name).map (·.name)) fs 0 []

/-! ### Title extraction (`get_html_title`, lines 59-79) -/

/-- First index of a `'>'` character (how the greedy `[^>]*>` lands on the
first `'>'`). -/
def findGtIdx : List Char → Option Nat
  | [] => none
  | c :: rest => if c = '>' then some 0 else (findGtIdx rest).map (· + 1)

/-- First index at which `pat` begins as a sublist of `cs` (the start position
chosen by `re.search`: leftmost). -/
def findSubstrIdx (pat : List Char) : List Char → Option Nat
  | [] => if pat.isEmpty then some 0 else none
  | c :: rest =>
    if pat.isPrefixOf (c :: rest) then some 0
    else (findSubstrIdx pat rest).map (· + 1)

/-- Lower-case image of a text, giving the `re.IGNORECASE` match positions. -/
def lowerList (cs : List Char) : List Char := cs.map Char.toLower

/-- The group of `re.search(r'<title>(.*?)</title>', content, I|S)`: text (from
the original string) between the first `<title>` and the first `</title>`
after it; `none` when the pattern does not match. -/
def titleTagGroup (cs : List Char) : Option (List Char) :=
  match findSubstrIdx "<title>".data (lowerList cs) with
  | none => none
  | some i =>
    match findSubstrIdx "</title>".data ((lowerList cs).drop (i + 7)) with
    | none => none
    | some j => some ((cs.drop (i + 7)).take j)

/-- The group of `re.search(r'<h1[^>]*>(.*?)</h1>', content, I|S)`: after the
first `<h1`, the greedy `[^>]*` runs to the first `'>'`, and the group runs to
the first `</h1>` after that. -/
def h1Group (cs : List Char) : Option (List Char) :=
  match findSubstrIdx "<h1".data (lowerList cs) with
  | none => none
  | some i =>
    match findGtIdx (cs.drop (i + 3)) with
    | none => none
    | some p =>
      match findSubstrIdx "</h1>".data ((lowerList cs).drop (i + 3 + p + 1)) with
      | none => none
      | some j => some ((cs.drop (i + 3 + p + 1)).take j)

/-- Structural worker for `stripHtmlTags`: every step consumes at least one
character, so `fuel = cs.length` suffices and the zero-fuel fallback is
unreachable. -/
def stripHtmlTagsAux : Nat → List Char → List Char
  | 0, cs => cs
  | _, [] => []
  | fuel + 1, c :: rest =>
    if c = '<' then
      match findGtIdx rest with
      | some 0 => '<' :: stripHtmlTagsAux fuel rest
      | some (j + 1) => stripHtmlTagsAux fuel (rest.drop (j + 2))
      | none => '<' :: stripHtmlTagsAux fuel rest
    else c :: stripHtmlTagsAux fuel rest

/-- `re.sub(r'<[^>]+>', '', s)`: drop every `<`…`>` span with at least one
non-`'>'` character between (left-to-right, non-overlapping). -/
def stripHtmlTags (cs : List Char) : List Char := stripHtmlTagsAux cs.length cs

/-- Python `str.isspace` characters relevant to `str.strip()` (ASCII range;
every character the pipeline's callers can produce). -/
def pyIsSpace (c : Char) : Bool :=
  c = ' ' ∨ c = '\t' ∨ c = '\n' ∨ c = '\r' ∨ c = '\x0b' ∨ c = '\x0c'

/-- Python `str.strip()`. -/
def pyStrip (cs : List Char) : List Char :=
  ((cs.dropWhile pyIsSpace).reverse.dropWhile pyIsSpace).reverse

/-- The `h1` fallback of `get_html_title` (lines 71-76): first `<h1>` group
with inner markup removed and whitespace stripped, else the filename stem. -/
def h1Fallback (cs : List Char) (stem : String) : String :=
  match h1Group cs with
  | some g =>
    let t := pyStrip (stripHtmlTags g)
    if t = [] then stem else String.mk t
  | none => stem

/-- `get_html_title`: `content` is what reading the file yields (`none` = the
read raises, caught by the bare `except`); `stem` is `Path(filepath).stem`. -/
def get_html_title (content : Option String) (stem : String) : String :=
  match content with
  | none => stem
  | some c =>
    match titleTagGroup c.data with
    | some g =>
      let t := pyStrip g
      if t = [] then h1Fallback c.data stem else String.mk t
    | none => h1Fallback c.data stem

/-! ### Date and sort-key extraction (lines 85-103) -/

/-- Gregorian leap year, as `datetime` validates it. -/
def isLeap (y : Nat) : Bool := (y % 4 = 0 ∧ y % 100 ≠ 0) ∨ y % 400 = 0

/-- Days in a month, as `datetime` validates `%d`. -/
def daysInMonth (y m : Nat) : Nat :=
  if m = 2 then (if isLeap y then 29 else 28)
  else if m = 4 ∨ m = 6 ∨ m = 9 ∨ m = 11 then 30
  else 31

/-- Whether `datetime.strptime(s, '%Y%m%d')` accepts year/month/day
(`datetime` requires `MINYEAR = 1 ≤ y ≤ 9999 = MAXYEAR`). -/
def validYmd (y m d : Nat) : Bool :=
  1 ≤ y ∧ y ≤ 9999 ∧ 1 ≤ m ∧ m ≤ 12 ∧ 1 ≤ d ∧ d ≤ daysInMonth y m

/-- Value of a list of decimal digit characters (Python `int(...)`). -/
def digitsToNat (cs : List Char) : Nat :=
  cs.foldl (fun acc c => 10 * acc + (c.toNat - 48)) 0

/-- `get_date_from_filename`: a leading `\d{8}` parsed as `%Y%m%d`, `none`
when absent or not a calendar date (the `ValueError` branch). -/
def get_date_from_filename (filename : String) : Option DateTime :=
  let cs := filename.data
  let d8 := cs.take 8
  if d8.length = 8 ∧ d8.all Char.isDigit then
    let y := digitsToNat (d8.take 4)
    let m := digitsToNat ((d8.drop 4).take 2)
    let d := digitsToNat (d8.drop 6)
    if validYmd y m d then some ⟨y, m, d, 0, 0, 0⟩ else none
  else none

/-- `get_sort_key_from_filename`: leading `(\d{8})(?:_(\d+))?`; the literal
8-digit string and the integer after `'_'` (0 when the group is absent), or
`("00000000", 0)` when there is no 8-digit prefix. -/
def get_sort_key_from_filename (filename : String) : String × Nat :=
  let cs := filename.data
  let d8 := cs.take 8
  if d8.length = 8 ∧ d8.all Char.isDigit then
    let date_str := String.mk d8
    if (cs.drop 8).take 1 = ['_'] then
      let digits := (cs.drop 9).takeWhile Char.isDigit
      if digits = [] then (date_str, 0) else (date_str, digitsToNat digits)
    else (date_str, 0)
  else ("00000000", 0)

-- Auto-transcribed string literals from src/generate-index.py
def DOCS_DIR : String := "docs"
def OUTPUT_FILE : String := "index.html"
def BASE_URL : String := "https://tamkai.github.io/MetaCreativeDocs/"
def IGNORE_FILE : String := ".docsignore"
def TAGS_FILE : String := "tags.json"

-- segment before interpolation: sort_key
def ITEM_S1 : String := "        <li class=\"doc-item\" data-sort-key=\""
-- segment before interpolation: doc['filename']
def ITEM_S2 : String := "\" data-filename=\""
-- segment before interpolation: doc['path']
def ITEM_S3 : String := "\" data-tags=\"\">\n            <a href=\""
-- segment before interpolation: doc['title']
def ITEM_S4 : String := "\" class=\"doc-link\">\n                <div class=\"doc-info\">\n                    <span class=\"doc-title\">"
-- segment before interpolation: date_str
def ITEM_S5 : String := "</span>\n                    <div class=\"doc-tags\"></div>\n                </div>\n                <span class=\"doc-meta\">\n                    <span class=\"doc-date\">"
-- segment before interpolation: full_url
def ITEM_S6 : String := "</span>\n                    <button class=\"copy-btn\" onclick=\"copyLink(event, '"
-- segment before interpolation: (end)
def ITEM_S7 : String := "')\" title=\"リンクをコピー\">\n                        <svg xmlns=\"http://www.w3.org/2000/svg\" width=\"16\" height=\"16\" viewBox=\"0 0 24 24\" fill=\"none\" stroke=\"currentColor\" stroke-width=\"2\" stroke-linecap=\"round\" stroke-linejoin=\"round\"><rect x=\"9\" y=\"9\" width=\"13\" height=\"13\" rx=\"2\" ry=\"2\"></rect><path d=\"M5 15H4a2 2 0 0 1-2-2V4a2 2 0 0 1 2-2h9a2 2 0 0 1 2 2v1\"></path></svg>\n                    </button>\n                </span>\n            </a>\n        </li>\n"
-- item interpolations in order: ['sort_key', "doc['filename']", "doc['path']", "doc['title']", 'date_str', 'full_url']

def NO_DOCS_HTML : String := "        <li class=\"no-docs\">ドキュメントはまだありません</li>\n"

def tags_filter_html : String := "<div class=\"tag-filter\">\n                    <span class=\"filter-label\">タグで絞り込み:</span>\n                    <div class=\"tag-buttons\" id=\"tag-filter-buttons\">\n                        <button class=\"tag-btn active\" data-tag=\"\">すべて</button>\n                    </div>\n                </div>"

-- segment before interpolation: len(html_files)
def PAGE_S1 : String := "<!DOCTYPE html>\n<html lang=\"ja\">\n<head>\n    <meta charset=\"UTF-8\">\n    <meta name=\"viewport\" content=\"width=device-width, initial-scale=1.0\">\n    <meta name=\"robots\" content=\"noindex, nofollow\">\n    <title>MetaCreative Docs</title>\n    <link rel=\"stylesheet\" href=\"style.css\">\n</head>\n<body>\n    <div class=\"container\">\n        <header>\n            <h1>MetaCreative Docs</h1>\n            <p class=\"subtitle\">ドキュメント一覧</p>\n        </header>\n\n        <main>\n            <section class=\"doc-list\">\n                <div class=\"list-header\">\n                    <h2>ドキュメント <span class=\"count\" id=\"doc-count\">("
-- segment before interpolation: tags_filter_html
def PAGE_S2 : String := "件)</span></h2>\n                    <div class=\"header-actions\">\n                        <button id=\"sort-toggle\" class=\"sort-btn\" onclick=\"toggleSort()\" title=\"並び順を切り替え\">\n                            <span class=\"sort-label\">新しい順</span>\n                            <svg xmlns=\"http://www.w3.org/2000/svg\" width=\"16\" height=\"16\" viewBox=\"0 0 24 24\" fill=\"none\" stroke=\"currentColor\" stroke-width=\"2\" stroke-linecap=\"round\" stroke-linejoin=\"round\"><path d=\"M12 5v14M5 12l7 7 7-7\"/></svg>\n                        </button>\n                        <button class=\"export-btn\" onclick=\"exportTags()\" title=\"タグデータをエクスポート\">\n                            <svg xmlns=\"http://www.w3.org/2000/svg\" width=\"16\" height=\"16\" viewBox=\"0 0 24 24\" fill=\"none\" stroke=\"currentColor\" stroke-width=\"2\" stroke-linecap=\"round\" stroke-linejoin=\"round\"><path d=\"M21 15v4a2 2 0 0 1-2 2H5a2 2 0 0 1-2-2v-4\"></path><polyline points=\"7 10 12 15 17 10\"></polyline><line x1=\"12\" y1=\"15\" x2=\"12\" y2=\"3\"></line></svg>\n                            エクスポート\n                        </button>\n                    </div>\n                </div>\n                "
-- segment before interpolation: docs_html
def PAGE_S3 : String := "\n                <ul id=\"doc-list\">\n"
-- segment before interpolation: datetime.now().strftime('%Y-%m-%d %H:%M')
def PAGE_S4 : String := "                </ul>\n            </section>\n        </main>\n\n        <footer>\n            <p>最終更新: "
-- segment before interpolation: (end)
def PAGE_S5 : String := "</p>\n        </footer>\n    </div>\n\n    <div id=\"toast\" class=\"toast\">リンクをコピーしました</div>\n\n    <script>\n    const STORAGE_KEY = 'metacreative_tags';\n    let isDescending = true;\n    let currentTag = '';\n    let tagsData = \x7b\x7d;\n\n    // localStorageからタグデータを読み込み\n    function loadTagsFromStorage() \x7b\n        const stored = localStorage.getItem(STORAGE_KEY);\n        if (stored) \x7b\n            try \x7b\n                tagsData = JSON.parse(stored);\n            \x7d catch (e) \x7b\n                tagsData = \x7b\x7d;\n            \x7d\n        \x7d\n    \x7d\n\n    // localStorageにタグデータを保存\n    function saveTagsToStorage() \x7b\n        localStorage.setItem(STORAGE_KEY, JSON.stringify(tagsData));\n    \x7d\n\n    // 全タグのリストを取得\n    function getAllTags() \x7b\n        const allTags = new Set();\n        Object.values(tagsData).forEach(tags => \x7b\n            tags.forEach(tag => allTags.add(tag));\n        \x7d);\n        return Array.from(allTags).sort();\n    \x7d\n\n    // タグフィルターボタンを再生成\n    function renderFilterButtons() \x7b\n        const container = document.getElementById('tag-filter-buttons');\n        const allTags = getAllTags();\n\n        container.innerHTML = '<button class=\"tag-btn active\" data-tag=\"\">すべて</button>';\n        allTags.forEach(tag => \x7b\n            const btn = document.createElement('button');\n            btn.className = 'tag-btn';\n            btn.dataset.tag = tag;\n            btn.textContent = tag;\n            container.appendChild(btn);\n        \x7d);\n\n        // イベント再設定\n        container.querySelectorAll('.tag-btn').forEach(btn => \x7b\n            btn.addEventListener('click', function() \x7b\n                filterByTag(this.dataset.tag);\n                container.querySelectorAll('.tag-btn').forEach(b => b.classList.remove('active'));\n                this.classList.add('active');\n            \x7d);\n        \x7d);\n    \x7d\n\n    // ドキュメントのタグ表示を更新\n    function renderDocTags() \x7b\n        document.querySelectorAll('.doc-item').forEach(item => \x7b\n            const filename = item.dataset.filename;\n            const tags = tagsData[filename] || [];\n            const tagsContainer = item.querySelector('.doc-tags');\n\n            // data-tags属性も更新\n            item.dataset.tags = tags.join(' ');\n\n            // タグHTML生成\n            let html = '<button class=\"add-tag-btn\" onclick=\"showTagInput(event, \\''+filename+'\\')\">+</button>';\n            tags.forEach(tag => \x7b\n                html += `<span class=\"tag-with-delete\">\n                    $\x7btag\x7d\n                    <button class=\"tag-delete-btn\" onclick=\"removeTag(event, '$\x7bfilename\x7d', '$\x7btag\x7d')\">&times;</button>\n                </span>`;\n            \x7d);\n            tagsContainer.innerHTML = html;\n        \x7d);\n    \x7d\n\n    // タグ入力を表示\n    function showTagInput(event, filename) \x7b\n        event.preventDefault();\n        event.stopPropagation();\n\n        // 既存の入力があれば削除\n        const existing = document.querySelector('.tag-input-container');\n        if (existing) existing.remove();\n\n        const btn = event.currentTarget;\n        const container = document.createElement('div');\n        container.className = 'tag-input-container';\n\n        const input = document.createElement('input');\n        input.type = 'text';\n        input.className = 'tag-input';\n        input.placeholder = 'タグを入力...';\n\n        const suggestions = document.createElement('div');\n        suggestions.className = 'tag-suggestions';\n        suggestions.style.display = 'none';\n\n        container.appendChild(input);\n        container.appendChild(suggestions);\n        btn.parentNode.insertBefore(container, btn.nextSibling);\n        input.focus();\n\n        // 入力時のサジェスト\n        input.addEventListener('input', function() \x7b\n            const val = this.value.trim().toLowerCase();\n            const allTags = getAllTags();\n            const currentTags = tagsData[filename] || [];\n\n            // 既についているタグは除外\n            const availableTags = allTags.filter(t => !currentTags.includes(t));\n\n            if (val) \x7b\n                const matches = availableTags.filter(t => t.toLowerCase().includes(val));\n                let html = '';\n                matches.forEach(t => \x7b\n                    html += `<div class=\"tag-suggestion-item\" data-tag=\"$\x7bt\x7d\">$\x7bt\x7d</div>`;\n                \x7d);\n                // 新規タグとして追加オプション\n                if (!allTags.map(t => t.toLowerCase()).includes(val)) \x7b\n                    html += `<div class=\"tag-suggestion-item new-tag\" data-tag=\"$\x7bthis.value.trim()\x7d\">「$\x7bthis.value.trim()\x7d」を新規作成</div>`;\n                \x7d\n                suggestions.innerHTML = html;\n                suggestions.style.display = html ? 'block' : 'none';\n\n                // クリックイベント\n                suggestions.querySelectorAll('.tag-suggestion-item').forEach(item => \x7b\n                    item.addEventListener('click', function() \x7b\n                        addTag(filename, this.dataset.tag);\n                        container.remove();\n                    \x7d);\n                \x7d);\n            \x7d else \x7b\n                // 空の場合は既存タグ一覧を表示\n                let html = '';\n                availableTags.slice(0, 5).forEach(t => \x7b\n                    html += `<div class=\"tag-suggestion-item\" data-tag=\"$\x7bt\x7d\">$\x7bt\x7d</div>`;\n                \x7d);\n                suggestions.innerHTML = html;\n                suggestions.style.display = html ? 'block' : 'none';\n\n                suggestions.querySelectorAll('.tag-suggestion-item').forEach(item => \x7b\n                    item.addEventListener('click', function() \x7b\n                        addTag(filename, this.dataset.tag);\n                        container.remove();\n                    \x7d);\n                \x7d);\n            \x7d\n        \x7d);\n\n        // Enterキーで追加\n        input.addEventListener('keydown', function(e) \x7b\n            if (e.key === 'Enter' && this.value.trim()) \x7b\n                addTag(filename, this.value.trim());\n                container.remove();\n            \x7d else if (e.key === 'Escape') \x7b\n                container.remove();\n            \x7d\n        \x7d);\n\n        // フォーカス外れたら閉じる（少し遅延させてクリックを受け付ける）\n        input.addEventListener('blur', function() \x7b\n            setTimeout(() => \x7b\n                if (!container.contains(document.activeElement)) \x7b\n                    container.remove();\n                \x7d\n            \x7d, 200);\n        \x7d);\n\n        // 初期表示\n        input.dispatchEvent(new Event('input'));\n    \x7d\n\n    // タグを追加\n    function addTag(filename, tag) \x7b\n        if (!tagsData[filename]) \x7b\n            tagsData[filename] = [];\n        \x7d\n        if (!tagsData[filename].includes(tag)) \x7b\n            tagsData[filename].push(tag);\n            saveTagsToStorage();\n            renderDocTags();\n            renderFilterButtons();\n            showToast('タグを追加しました');\n        \x7d\n    \x7d\n\n    // タグを削除\n    function removeTag(event, filename, tag) \x7b\n        event.preventDefault();\n        event.stopPropagation();\n\n        if (tagsData[filename]) \x7b\n            tagsData[filename] = tagsData[filename].filter(t => t !== tag);\n            if (tagsData[filename].length === 0) \x7b\n                delete tagsData[filename];\n            \x7d\n            saveTagsToStorage();\n            renderDocTags();\n            renderFilterButtons();\n            // フィルターをリセット\n            if (currentTag === tag) \x7b\n                filterByTag('');\n            \x7d\n            showToast('タグを削除しました');\n        \x7d\n    \x7d\n\n    // タグデータをエクスポート\n    function exportTags() \x7b\n        const json = JSON.stringify(tagsData, null, 2);\n        const blob = new Blob([json], \x7b type: 'application/json' \x7d);\n        const url = URL.createObjectURL(blob);\n        const a = document.createElement('a');\n        a.href = url;\n        a.download = 'tags.json';\n        document.body.appendChild(a);\n        a.click();\n        document.body.removeChild(a);\n        URL.revokeObjectURL(url);\n        showToast('tags.jsonをダウンロードしました');\n    \x7d\n\n    function copyLink(event, url) \x7b\n        event.preventDefault();\n        event.stopPropagation();\n\n        navigator.clipboard.writeText(url).then(function() \x7b\n            showToast('リンクをコピーしました');\n        \x7d).catch(function(err) \x7b\n            console.error('コピーに失敗しました:', err);\n        \x7d);\n    \x7d\n\n    function showToast(message) \x7b\n        const toast = document.getElementById('toast');\n        toast.textContent = message;\n        toast.classList.add('show');\n        setTimeout(function() \x7b\n            toast.classList.remove('show');\n        \x7d, 2000);\n    \x7d\n\n    function toggleSort() \x7b\n        isDescending = !isDescending;\n        const list = document.getElementById('doc-list');\n        const items = Array.from(list.querySelectorAll('.doc-item'));\n        const btn = document.getElementById('sort-toggle');\n        const label = btn.querySelector('.sort-label');\n        const svg = btn.querySelector('svg');\n\n        items.sort((a, b) => \x7b\n            const keyA = a.dataset.sortKey;\n            const keyB = b.dataset.sortKey;\n            return isDescending ? keyB.localeCompare(keyA) : keyA.localeCompare(keyB);\n        \x7d);\n\n        items.forEach(item => list.appendChild(item));\n        label.textContent = isDescending ? '新しい順' : '古い順';\n        svg.style.transform = isDescending ? 'rotate(0deg)' : 'rotate(180deg)';\n    \x7d\n\n    function filterByTag(tag) \x7b\n        currentTag = tag;\n        const items = document.querySelectorAll('.doc-item');\n        let visibleCount = 0;\n\n        items.forEach(item => \x7b\n            const tags = item.dataset.tags || '';\n            if (!tag || tags.split(' ').includes(tag)) \x7b\n                item.style.display = '';\n                visibleCount++;\n            \x7d else \x7b\n                item.style.display = 'none';\n            \x7d\n        \x7d);\n\n        document.getElementById('doc-count').textContent = `($\x7bvisibleCount\x7d件)`;\n    \x7d\n\n    // 初期化\n    document.addEventListener('DOMContentLoaded', function() \x7b\n        loadTagsFromStorage();\n        renderDocTags();\n        renderFilterButtons();\n    \x7d);\n    </script>\n</body>\n</html>\n"
-- page interpolations in order: ['len(html_files)', 'tags_filter_html', 'docs_html', "datetime.now().strftime('%Y-%m-%d %H:%M')"]

/-! ### Registry loaders (lines 105-128) -/

/-- Split on newline characters (`for line in f` followed by `strip()` sees
exactly these segments). -/
def splitOnNl : List Char → List (List Char)
  | [] => [[]]
  | c :: rest =>
    if c = '\n' then [] :: splitOnNl rest
    else
      match splitOnNl rest with
      | h :: t => (c :: h) :: t
      | [] => [[c]]

/-- `load_ignore_list`: `none` = the ignore file is absent (→ empty registry);
otherwise one trimmed filename per non-empty, non-`#` line, in file order. -/
def load_ignore_list (ignoreFile : Option String) : List String :=
  match ignoreFile with
  | none => []
  | some content =>
    (((splitOnNl content.data).map pyStrip).filter
      (fun l => ¬ l = [] ∧ ¬ l.take 1 = ['#'])).map String.mk

/-- A parsed tag registry: the JSON object as an association list in key
order. -/
def TagsData := List (String × List String)

/-- `load_tags`: absence of the file yields `{}`; a present file carries its
`json.load` outcome, and a parse error propagates (fatal for the run). -/
def load_tags (tagsFile : Option (Except String TagsData)) : Except String TagsData :=
  match tagsFile with
  | none => .ok []
  | some r => r

/-- Lexicographic-by-code-point strict order on texts (how Python compares
`str`, used by `sorted` and by tuple comparison). -/
def strLtB : List Char → List Char → Bool
  | [], [] => false
  | [], _ :: _ => true
  | _ :: _, [] => false
  | a :: as, b :: bs =>
    if a.toNat < b.toNat then true
    else if b.toNat < a.toNat then false
    else strLtB as bs

/-- `get_all_tags`: union of all registry values, deduplicated and sorted
(collected by the script, line 139, though never rendered). -/
def get_all_tags (tags_data : TagsData) : List String :=
  List.insertionSort (fun a b => ¬ strLtB b.data a.data = true)
    ((tags_data.map Prod.snd).flatten.dedup)

/-- `tags_data.get(filename, [])`. -/
def tagsLookup (tags_data : TagsData) (name : String) : List String :=
  match tags_data.find? (fun p => p.1 = name) with
  | some p => p.2
  | none => []

/-! ### The document record and collection (lines 145-167) -/

/-- The per-document record the script assembles (its dict literal,
lines 160-167). -/
structure Doc where
  path : String
  filename : String
  title : String
  date : DateTime
  sort_key : String × Nat
  tags : List String
deriving DecidableEq

/-- One iteration of the collection loop for a non-ignored html file:
title, display date (filename date else mtime), sort key and tags. -/
def mkDoc (tags_data : TagsData) (e : FileEntry) : Doc :=
  { path := DOCS_DIR ++ "/" ++ e.name
    filename := e.name
    title := get_html_title e.content (pathStem e.name)
    date :=
      match get_date_from_filename e.name with
      | some d => d
      | none => e.mtime
    sort_key := get_sort_key_from_filename e.name
    tags := tagsLookup tags_data e.name }

/-- The collection loop (lines 146-167): every `*.html` file not in the
ignore registry, in directory-enumeration order. -/
def collectDocs (fs : List FileEntry) (ignore_list : List String)
    (tags_data : TagsData) : List Doc :=
  fs.filterMap fun e =>
    if endsWithHtml e.name then
      if e.name ∈ ignore_list then none else some (mkDoc tags_data e)
    else none

/-! ### Sorting (line 170) -/

/-- Descending tuple order on sort keys: `a ≥ b` as Python compares
`(date-string, sequence)` tuples.  `list.sort(key=…, reverse=True)` is the
stable sort along this relation. -/
def keyGe (a b : String × Nat) : Prop :=
  strLtB b.1.data a.1.data = true ∨ (a.1 = b.1 ∧ b.2 ≤ a.2)

instance : DecidableRel keyGe := fun a b => by
  unfold keyGe; infer_instance

/-- The relation the sort uses, lifted to documents. -/
def docGeRel (a b : Doc) : Prop := keyGe a.sort_key b.sort_key

instance : DecidableRel docGeRel := fun a b => by
  unfold docGeRel; infer_instance

/-- `html_files.sort(key=lambda x: (x['sort_key'][0], x['sort_key'][1]),
reverse=True)`: Python's sort is stable, embedded as the stable
`insertionSort` along `docGeRel`. -/
def sortDocs (docs : List Doc) : List Doc := List.insertionSort docGeRel docs

/-! ### Rendering (lines 173-246) -/

/-- `f"{doc['sort_key'][0]}_{doc['sort_key'][1]:02d}"` (line 178). -/
def sortKeyAttr (sk : String × Nat) : String := sk.1 ++ "_" ++ padZero 2 sk.2

/-- One `<li>` of the listing (the f-string of lines 179-193); note the tags
never appear: `data-tags` is the literal empty string and `doc-tags` an empty
container. -/
def docItemHtml (d : Doc) : String :=
  ITEM_S1 ++ sortKeyAttr d.sort_key ++ ITEM_S2 ++ d.filename ++ ITEM_S3 ++
    d.path ++ ITEM_S4 ++ d.title ++ ITEM_S5 ++ fmtDateStr d.date ++ ITEM_S6 ++
    (BASE_URL ++ d.path) ++ ITEM_S7

/-- `docs_html` (lines 173-195): the concatenated items, or the placeholder
row when no document qualifies. -/
def docsHtml (docs : List Doc) : String :=
  if docs = [] then NO_DOCS_HTML
  else String.join (docs.map docItemHtml)

/-- The full page (the `html_content` f-string, lines 206-541): static text
around the document count, the static filter container, the list and the
footer timestamp. -/
def htmlContent (count : Nat) (docs_html : String) (now : DateTime) : String :=
  PAGE_S1 ++ natRepr count ++ PAGE_S2 ++ tags_filter_html ++ PAGE_S3 ++
    docs_html ++ PAGE_S4 ++ fmtFooter now ++ PAGE_S5

/-- `generate_index` (lines 130-546): the whole pipeline.  Returns the page
text written to `index.html`, the directory after the rename pass and the
`(old, new)` rename pairs — or the uncaught tag-registry parse error, in which
case nothing is renamed and no output is produced. -/
def generate_index (clock : Nat → DateTime) (now : DateTime)
    (fs : List FileEntry) (ignoreFile : Option String)
    (tagsFile : Option (Except String TagsData)) :
    Except String (String × List FileEntry × List (String × String)) :=
  let ignore_list := load_ignore_list ignoreFile
  match load_tags tagsFile with
  | .error e => .error e
  | .ok tags_data =>
    let _all_tags := get_all_tags tags_data
    let (renamed, fsAfter) := rename_japanese_files clock fs
    let html_files := collectDocs fsAfter ignore_list tags_data
    let sorted := sortDocs html_files
    let docs_html := docsHtml sorted
    .ok (htmlContent html_files.length docs_html now, fsAfter, renamed)


/-! ### Derived definitions used by the claims -/

/-! ### Tag-erasure: rendering reads no tag field -/

/-- A document with its collected tags dropped; rendering (and the sort
relation) cannot tell the difference. -/
def eraseTags (d : Doc) : Doc := { d with tags := [] }

/-- Concrete documents realising the sort keys of claim C1's example. -/
def cDocA2 : Doc :=
  { path := "docs/a.html", filename := "a.html", title := "A",
    date := ⟨2025, 11, 28, 0, 0, 0⟩, sort_key := ("20251128", 2), tags := [] }

/-- Second example document of claim C1 (same date, sequence 0). -/
def cDocA0 : Doc :=
  { path := "docs/b.html", filename := "b.html", title := "B",
    date := ⟨2025, 11, 28, 0, 0, 0⟩, sort_key := ("20251128", 0), tags := [] }

/-- Third example document of claim C1 (later date, sequence 0). -/
def cDocB0 : Doc :=
  { path := "docs/c.html", filename := "c.html", title := "C",
    date := ⟨2025, 12, 1, 0, 0, 0⟩, sort_key := ("20251201", 0), tags := [] }

/-- Directory used by claim C8's witness: one ignored html file. -/
def cFsC8 : List FileEntry :=
  [{ name := "x.html", content := some "<title>X</title>", mtime := ⟨2025, 1, 1, 0, 0, 0⟩ }]

/-- Directory entry used by claim C3's counterexample. -/
def cEntryC3 : FileEntry :=
  { name := "a.html", content := some "<title>A</title>", mtime := ⟨2025, 11, 28, 0, 0, 0⟩ }

/-- Directory entry of claim C4's witness: an 8-digit prefix that is not a
calendar date. -/
def cEntryC4 : FileEntry :=
  { name := "20259999.html", content := some "<title>T</title>",
    mtime := ⟨2024, 5, 6, 7, 8, 9⟩ }

/-- Directory used by claim C5's witness. -/
def cFsC5 : List FileEntry :=
  [{ name := "plain.html", content := some "<title>P</title>", mtime := ⟨2025, 1, 1, 0, 0, 0⟩ },
   { name := "あいう.html", content := some "<title>J</title>", mtime := ⟨2025, 1, 1, 0, 0, 0⟩ }]

/-- The pattern `pat` (a lowercase literal) matches at position `i` of the
text under `re.IGNORECASE`. -/
def patAt (pat : String) (cs : List Char) (i : Nat) : Prop :=
  pat.data.isPrefixOf ((lowerList cs).drop i) = true

instance (pat : String) (cs : List Char) (i : Nat) : Decidable (patAt pat cs i) := by
  unfold patAt
  infer_instance

/-- The first `<title>`…`</title>` element: the open tag's first occurrence is
at `i` and `j` is the first close tag at or after `i + 7`. -/
def firstTitleSpan (cs : List Char) (i j : Nat) : Prop :=
  patAt "<title>" cs i ∧ (∀ i2, i2 < i → ¬ patAt "<title>" cs i2) ∧
    i + 7 ≤ j ∧ patAt "</title>" cs j ∧
    ∀ j2, j2 < j → i + 7 ≤ j2 → ¬ patAt "</title>" cs j2

/-- What the group `(.*?)` of the title regex captures for that span. -/
def titleSpanGroup (cs : List Char) (i j : Nat) : List Char :=
  (cs.drop (i + 7)).take (j - (i + 7))

/-- The first `<h1[^>]*>`…`</h1>` element: `<h1` first occurs at `i`, `p` is
the position of the first `'>'` at or after `i + 3` (where the greedy `[^>]*>`
stops), and `j` is the first `</h1>` at or after `p + 1`. -/
def firstH1Span (cs : List Char) (i p j : Nat) : Prop :=
  patAt "<h1" cs i ∧ (∀ i2, i2 < i → ¬ patAt "<h1" cs i2) ∧
    i + 3 ≤ p ∧ (cs.drop p).take 1 = ['>'] ∧
    (∀ q, q < p → i + 3 ≤ q → ¬ (cs.drop q).take 1 = ['>']) ∧
    p + 1 ≤ j ∧ patAt "</h1>" cs j ∧
    ∀ j2, j2 < j → p + 1 ≤ j2 → ¬ patAt "</h1>" cs j2

/-- What the group `(.*?)` of the h1 regex captures for that span. -/
def h1SpanGroup (cs : List Char) (p j : Nat) : List Char :=
  (cs.drop (p + 1)).take (j - (p + 1))

instance (cs : List Char) (i j : Nat) : Decidable (firstTitleSpan cs i j) := by
  unfold firstTitleSpan
  infer_instance

instance (cs : List Char) (i p j : Nat) : Decidable (firstH1Span cs i p j) := by
  unfold firstH1Span
  infer_instance

/-! ### Lemmas: decimal digits -/

theorem natDigitsAux_congr : ∀ (f g n : Nat), n < f → n < g →
    natDigitsAux f n = natDigitsAux g n := by
  intro f
  induction f with
  | zero => omega
  | succ f ih =>
    intro g n hf hg
    cases g with
    | zero => omega
    | succ g =>
      simp only [natDigitsAux]
      by_cases h : n < 10
      · simp [h]
      · have hd : n / 10 < n := Nat.div_lt_self (by omega) (by omega)
        simp only [if_neg h]
        rw [ih g (n / 10) (by omega) (by omega)]

theorem natDigits_unfold (n : Nat) : natDigits n =
    if n < 10 then [Char.ofNat (48 + n)]
    else natDigits (n / 10) ++ [Char.ofNat (48 + n % 10)] := by
  have h1 : natDigits n =
      if n < 10 then [Char.ofNat (48 + n)]
      else natDigitsAux n (n / 10) ++ [Char.ofNat (48 + n % 10)] := rfl
  by_cases h : n < 10
  · rw [h1, if_pos h, if_pos h]
  · rw [h1, if_neg h, if_neg h]
    congr 1
    exact natDigitsAux_congr n (n / 10 + 1) (n / 10)
      (Nat.div_lt_self (by omega) (by omega)) (by omega)

theorem natDigits_ne_nil (n : Nat) : natDigits n ≠ [] := by
  rw [natDigits_unfold]
  by_cases h : n < 10 <;> simp [h]

theorem digitChar_inj : ∀ d₁ < 10, ∀ d₂ < 10,
    Char.ofNat (48 + d₁) = Char.ofNat (48 + d₂) → d₁ = d₂ := by decide

theorem digitChar_isDigit : ∀ d < 10, (Char.ofNat (48 + d)).isDigit = true := by decide

theorem natDigits_all_digit (n : Nat) : ∀ c ∈ natDigits n, c.isDigit = true := by
  induction n using Nat.strong_induction_on with
  | _ n ih =>
    rw [natDigits_unfold]
    by_cases h : n < 10
    · simp only [if_pos h, List.mem_singleton]
      rintro c rfl
      exact digitChar_isDigit n h
    · have hd : n / 10 < n := Nat.div_lt_self (by omega) (by omega)
      simp only [if_neg h, List.mem_append, List.mem_singleton]
      rintro c (hc | rfl)
      · exact ih (n / 10) hd c hc
      · exact digitChar_isDigit (n % 10) (Nat.mod_lt n (by omega))

theorem natDigits_inj : ∀ m n : Nat, natDigits m = natDigits n → m = n := by
  intro m
  induction m using Nat.strong_induction_on with
  | _ m ih =>
    intro n hmn
    rw [natDigits_unfold m, natDigits_unfold n] at hmn
    by_cases hm : m < 10 <;> by_cases hn : n < 10
    · simp only [if_pos hm, if_pos hn, List.cons.injEq, and_true] at hmn
      exact digitChar_inj m hm n hn (by rw [hmn])
    · exfalso
      simp only [if_pos hm, if_neg hn] at hmn
      have := congrArg List.length hmn
      simp at this
      have h0 := natDigits_ne_nil (n / 10)
      cases h : natDigits (n / 10) with
      | nil => exact h0 h
      | cons a l => rw [h] at this; simp at this
    · exfalso
      simp only [if_neg hm, if_pos hn] at hmn
      have := congrArg List.length hmn
      simp at this
      have h0 := natDigits_ne_nil (m / 10)
      cases h : natDigits (m / 10) with
      | nil => exact h0 h
      | cons a l => rw [h] at this; simp at this
    · simp only [if_neg hm, if_neg hn] at hmn
      have hlen : ([Char.ofNat (48 + m % 10)] : List Char).length =
          ([Char.ofNat (48 + n % 10)] : List Char).length := by simp
      obtain ⟨h1, h2⟩ := List.append_inj' hmn hlen
      have hdiv : m / 10 = n / 10 :=
        ih (m / 10) (Nat.div_lt_self (by omega) (by omega)) (n / 10) h1
      have hmod : m % 10 = n % 10 := by
        simp only [List.cons.injEq, and_true] at h2
        exact digitChar_inj (m % 10) (Nat.mod_lt m (by omega))
          (n % 10) (Nat.mod_lt n (by omega)) h2
      omega

theorem digitChar_toNat_bounds : ∀ d < 10,
    48 ≤ (Char.ofNat (48 + d)).toNat ∧ (Char.ofNat (48 + d)).toNat ≤ 57 := by decide

theorem natDigits_toNat_bounds (n : Nat) :
    ∀ c ∈ natDigits n, 48 ≤ c.toNat ∧ c.toNat ≤ 57 := by
  induction n using Nat.strong_induction_on with
  | _ n ih =>
    rw [natDigits_unfold]
    by_cases h : n < 10
    · simp only [if_pos h, List.mem_singleton]
      rintro c rfl
      exact digitChar_toNat_bounds n h
    · simp only [if_neg h, List.mem_append, List.mem_singleton]
      rintro c (hc | rfl)
      · exact ih (n / 10) (Nat.div_lt_self (by omega) (by omega)) c hc
      · exact digitChar_toNat_bounds (n % 10) (Nat.mod_lt n (by omega))

theorem natDigits_all_ascii (n : Nat) : ∀ c ∈ natDigits n, isAsciiChar c = true := by
  intro c hc
  have h := natDigits_toNat_bounds n c hc
  simp only [isAsciiChar, decide_eq_true_eq]
  omega

theorem natDigits_no_dot (n : Nat) : ∀ c ∈ natDigits n, ¬ c = '.' := by
  intro c hc h
  have hb := natDigits_toNat_bounds n c hc
  rw [h] at hb
  exact absurd hb (by decide)

/-! ### Lemmas: code-point string order -/

theorem char_toNat_inj {a b : Char} (h : a.toNat = b.toNat) : a = b := by
  apply Char.ext
  exact UInt32.ext h

theorem strLtB_total : ∀ as bs : List Char,
    strLtB as bs = false → strLtB bs as = false → as = bs := by
  intro as
  induction as with
  | nil => intro bs; cases bs <;> simp [strLtB]
  | cons a as ih =>
    intro bs
    cases bs with
    | nil => simp [strLtB]
    | cons b bs =>
      simp only [strLtB]
      by_cases h1 : a.toNat < b.toNat
      · simp [h1]
      · by_cases h2 : b.toNat < a.toNat
        · simp [h1, h2]
        · simp only [if_neg h1, if_neg h2]
          intro hab hba
          have hab' : a = b := char_toNat_inj (by omega)
          rw [hab', ih bs hab hba]

theorem strLtB_trans : ∀ as bs cs : List Char,
    strLtB as bs = true → strLtB bs cs = true → strLtB as cs = true := by
  intro as
  induction as with
  | nil =>
    intro bs cs hab hbc
    cases bs with
    | nil => simpa [strLtB] using hbc
    | cons b bs =>
      cases cs with
      | nil => simp [strLtB] at hbc
      | cons c cs => simp [strLtB]
  | cons a as ih =>
    intro bs cs hab hbc
    cases bs with
    | nil => simp [strLtB] at hab
    | cons b bs =>
      cases cs with
      | nil => simp [strLtB] at hbc
      | cons c cs =>
        simp only [strLtB] at hab hbc ⊢
        by_cases h1 : a.toNat < b.toNat <;> by_cases h2 : b.toNat < c.toNat
        · simp [show a.toNat < c.toNat by omega]
        · simp only [if_pos h1] at hab
          by_cases h3 : c.toNat < b.toNat
          · simp [h2, h3] at hbc
          · have : b.toNat = c.toNat := by omega
            simp [show a.toNat < c.toNat by omega]
        · simp only [if_neg h1] at hab
          by_cases h4 : b.toNat < a.toNat
          · simp [h4] at hab
          · have : a.toNat = b.toNat := by omega
            simp [show a.toNat < c.toNat by omega]
        · simp only [if_neg h1] at hab
          by_cases h4 : b.toNat < a.toNat
          · simp [h4] at hab
          · simp only [if_neg h4] at hab
            simp only [if_neg h2] at hbc
            by_cases h5 : c.toNat < b.toNat
            · simp [h5] at hbc
            · simp only [if_neg h5] at hbc
              have hac : ¬ a.toNat < c.toNat ∧ ¬ c.toNat < a.toNat := by omega
              simp only [if_neg hac.1, if_neg hac.2]
              exact ih bs cs hab hbc

theorem strLtB_asymm : ∀ as bs : List Char,
    strLtB as bs = true → strLtB bs as = false := by
  intro as
  induction as with
  | nil => intro bs; cases bs <;> simp [strLtB]
  | cons a as ih =>
    intro bs
    cases bs with
    | nil => simp [strLtB]
    | cons b bs =>
      simp only [strLtB]
      by_cases h1 : a.toNat < b.toNat
      · simp [h1, show ¬ b.toNat < a.toNat by omega]
      · by_cases h2 : b.toNat < a.toNat
        · simp [h1, h2]
        · simp only [if_neg h1, if_neg h2]
          exact ih bs

/-! ### Lemmas: the sort relation -/

theorem keyGe_total : ∀ a b : String × Nat, keyGe a b ∨ keyGe b a := by
  intro a b
  unfold keyGe
  cases h1 : strLtB b.1.data a.1.data
  · cases h2 : strLtB a.1.data b.1.data
    · have : a.1 = b.1 := String.ext (strLtB_total a.1.data b.1.data h2 h1)
      by_cases h3 : b.2 ≤ a.2
      · exact Or.inl (Or.inr ⟨this, h3⟩)
      · exact Or.inr (Or.inr ⟨this.symm, by omega⟩)
    · exact Or.inr (Or.inl rfl)
  · exact Or.inl (Or.inl rfl)

theorem keyGe_trans : ∀ a b c : String × Nat, keyGe a b → keyGe b c → keyGe a c := by
  intro a b c hab hbc
  unfold keyGe at *
  rcases hab with h1 | ⟨h1, h1n⟩
  · rcases hbc with h2 | ⟨h2, h2n⟩
    · exact Or.inl (strLtB_trans c.1.data b.1.data a.1.data h2 h1)
    · exact Or.inl (by rw [← h2]; exact h1)
  · rcases hbc with h2 | ⟨h2, h2n⟩
    · exact Or.inl (by rw [h1]; exact h2)
    · exact Or.inr ⟨h1.trans h2, by omega⟩

instance : IsTotal Doc docGeRel := ⟨fun a b => keyGe_total a.sort_key b.sort_key⟩

instance : IsTrans Doc docGeRel :=
  ⟨fun a b c => keyGe_trans a.sort_key b.sort_key c.sort_key⟩

theorem keyGe_refl_of_eq {a b : String × Nat} (h : a = b) : keyGe a b := by
  subst h
  exact Or.inr ⟨rfl, le_refl _⟩

/-! ### Lemmas: the sort itself -/

theorem sortDocs_perm (l : List Doc) : List.Perm (sortDocs l) l :=
  List.perm_insertionSort docGeRel l

theorem sortDocs_sorted (l : List Doc) : List.Sorted docGeRel (sortDocs l) :=
  List.sorted_insertionSort docGeRel l

theorem orderedInsert_filter_pos (d : Doc) (k : String × Nat) (hd : d.sort_key = k) :
    ∀ l : List Doc, (List.orderedInsert docGeRel d l).filter (fun x => decide (x.sort_key = k)) =
      d :: l.filter (fun x => decide (x.sort_key = k)) := by
  intro l
  induction l with
  | nil => simp [List.orderedInsert, List.filter, hd]
  | cons b l ih =>
    by_cases hr : docGeRel d b
    · simp [List.orderedInsert, if_pos hr, List.filter_cons, hd]
    · have hbk : ¬ b.sort_key = k := by
        intro hbk
        exact hr (keyGe_refl_of_eq (hd.trans hbk.symm))
      simp only [List.orderedInsert, if_neg hr, List.filter_cons]
      simp only [hbk, decide_False]
      simpa [hbk] using ih

theorem orderedInsert_filter_neg (d : Doc) (k : String × Nat) (hd : ¬ d.sort_key = k) :
    ∀ l : List Doc, (List.orderedInsert docGeRel d l).filter (fun x => decide (x.sort_key = k)) =
      l.filter (fun x => decide (x.sort_key = k)) := by
  intro l
  induction l with
  | nil => simp [List.orderedInsert, List.filter, hd]
  | cons b l ih =>
    by_cases hr : docGeRel d b
    · simp [List.orderedInsert, if_pos hr, List.filter_cons, hd]
    · simp only [List.orderedInsert, if_neg hr, List.filter_cons]
      rw [ih]

theorem sortDocs_filter_key (l : List Doc) (k : String × Nat) :
    (sortDocs l).filter (fun x => decide (x.sort_key = k)) =
      l.filter (fun x => decide (x.sort_key = k)) := by
  induction l with
  | nil => rfl
  | cons d l ih =>
    show (List.orderedInsert docGeRel d (sortDocs l)).filter _ = _
    by_cases hd : d.sort_key = k
    · rw [orderedInsert_filter_pos d k hd, ih]
      simp [List.filter_cons, hd]
    · rw [orderedInsert_filter_neg d k hd, ih]
      simp [List.filter_cons, hd]



theorem docItemHtml_eraseTags (d : Doc) : docItemHtml (eraseTags d) = docItemHtml d := rfl

theorem mkDoc_eraseTags (t : TagsData) (e : FileEntry) :
    eraseTags (mkDoc t e) = mkDoc [] e := rfl

theorem collectDocs_map_eraseTags (fs : List FileEntry) (ig : List String) (t : TagsData) :
    (collectDocs fs ig t).map eraseTags = collectDocs fs ig [] := by
  induction fs with
  | nil => rfl
  | cons e fs ih =>
    simp only [collectDocs, List.filterMap_cons] at *
    by_cases h1 : endsWithHtml e.name = true
    · by_cases h2 : e.name ∈ ig
      · simp only [if_pos h1, if_pos h2]
        exact ih
      · simp only [if_pos h1, if_neg h2, List.map_cons]
        rw [mkDoc_eraseTags, ih]
    · simp only [if_neg h1]
      exact ih

theorem sortDocs_map_eraseTags (l : List Doc) :
    (sortDocs l).map eraseTags = sortDocs (l.map eraseTags) := by
  exact List.map_insertionSort docGeRel docGeRel eraseTags l
    (fun a _ b _ => Iff.rfl)

theorem docsHtml_map_eraseTags (l : List Doc) :
    docsHtml (l.map eraseTags) = docsHtml l := by
  unfold docsHtml
  by_cases h : l = []
  · subst h; rfl
  · rw [if_neg (by simpa using h), if_neg h, List.map_map]
    have hfun : docItemHtml ∘ eraseTags = docItemHtml := funext fun d => rfl
    rw [hfun]

/-! ### Claim theorems -/


/-- C1: the rendered document list is the input list stably sorted by sort key
descending — the output is a permutation of the input, it is sorted along
`docGeRel` (date-string descending by code-point order, then sequence number
descending), the sort is stable and total (documents with identical sort keys
keep their original enumeration order: the sublist at any fixed key is
unchanged), and on the example keys `("20251128", 2)`, `("20251128", 0)`,
`("20251201", 0)` the rendered order is `("20251201", 0)`, `("20251128", 2)`,
`("20251128", 0)`. -/
theorem claim_C1 :
    (∀ l : List Doc, List.Perm (sortDocs l) l)
    ∧ (∀ l : List Doc, List.Sorted docGeRel (sortDocs l))
    ∧ (∀ (l : List Doc) (k : String × Nat),
        (sortDocs l).filter (fun x => decide (x.sort_key = k)) =
          l.filter (fun x => decide (x.sort_key = k)))
    ∧ sortDocs [cDocA2, cDocA0, cDocB0] = [cDocB0, cDocA2, cDocA0] :=
  ⟨sortDocs_perm, sortDocs_sorted, sortDocs_filter_key, by decide⟩

/-- C8: a document whose filename is listed in the ignore registry never
appears among the documents handed to the renderer, whatever its tags or
date. -/
theorem claim_C8 : ∀ (fs : List FileEntry) (ig : Option String) (tags : TagsData)
    (f : String), f ∈ load_ignore_list ig →
    ∀ d ∈ sortDocs (collectDocs fs (load_ignore_list ig) tags), d.filename ≠ f := by
  intro fs ig tags f hf d hd hdf
  have hd1 : d ∈ collectDocs fs (load_ignore_list ig) tags :=
    (sortDocs_perm _).mem_iff.mp hd
  obtain ⟨e, he, hmk⟩ := List.mem_filterMap.mp hd1
  by_cases h1 : endsWithHtml e.name = true
  · rw [if_pos h1] at hmk
    by_cases h2 : e.name ∈ load_ignore_list ig
    · rw [if_pos h2] at hmk
      exact Option.noConfusion hmk
    · rw [if_neg h2] at hmk
      have hde : d = mkDoc tags e := (Option.some.inj hmk).symm
      apply h2
      have : d.filename = e.name := by rw [hde]; rfl
      rw [← this, hdf]
      exact hf
  · rw [if_neg h1] at hmk
    exact Option.noConfusion hmk


/-- Witness for C8 at a concrete directory and ignore file: the ignored
filename is absent from the rendered document list. -/
theorem claim_C8_witness :
    ¬ "x.html" ∈ (sortDocs (collectDocs cFsC8 (load_ignore_list (some "x.html\n")) [])).map
      (fun d => d.filename) := by
  intro hmem
  obtain ⟨d, hd, hdf⟩ := List.mem_map.mp hmem
  exact claim_C8 cFsC8 (some "x.html\n") [] "x.html" (by decide) d hd hdf

/-- C9: a missing ignore file or tag file yields an empty registry (no error);
the ignore file is one trimmed filename per non-empty line with `#` comment
lines skipped; and a tag file whose JSON parse fails aborts the whole run with
that error before any output is produced. -/
theorem claim_C9 :
    (load_ignore_list none = [] ∧ load_tags none = Except.ok [])
    ∧ (∀ (content : String) (f : String),
        f ∈ load_ignore_list (some content) ↔
          ∃ line ∈ splitOnNl content.data,
            pyStrip line = f.data ∧ ¬ f.data = [] ∧ ¬ f.data.take 1 = ['#'])
    ∧ (∀ (clock : Nat → DateTime) (now : DateTime) (fs : List FileEntry)
        (ig : Option String) (e : String),
        generate_index clock now fs ig (some (Except.error e)) = Except.error e) := by
  refine ⟨⟨rfl, rfl⟩, ?_, fun _ _ _ _ _ => rfl⟩
  intro content f
  constructor
  · intro hf
    simp only [load_ignore_list, List.mem_map, List.mem_filter,
      decide_eq_true_eq] at hf
    obtain ⟨cs, ⟨⟨line, hline, hstrip⟩, hne, hhash⟩, hmk⟩ := hf
    subst hmk
    exact ⟨line, hline, hstrip, hne, hhash⟩
  · rintro ⟨line, hline, hstrip, hne, hhash⟩
    simp only [load_ignore_list, List.mem_map, List.mem_filter,
      decide_eq_true_eq]
    exact ⟨f.data, ⟨⟨line, hline, hstrip⟩, hne, hhash⟩, String.ext rfl⟩

/-- C10: the page is byte-for-byte independent of the (well-formed) tag
registry — collected tags and the all-tags union never reach the output; and
every rendered entry carries the literal empty `data-tags=""` attribute. -/
theorem claim_C10 :
    (∀ (clock : Nat → DateTime) (now : DateTime) (fs : List FileEntry)
      (ig : Option String) (t1 t2 : TagsData),
      generate_index clock now fs ig (some (Except.ok t1)) =
        generate_index clock now fs ig (some (Except.ok t2)))
    ∧ ∀ d : Doc, List.IsInfix ("data-tags=\"\"".data) (docItemHtml d).data := by
  constructor
  · intro clock now fs ig t1 t2
    simp only [generate_index, load_tags]
    have h1 : ∀ t : TagsData,
        docsHtml (sortDocs (collectDocs (rename_japanese_files clock fs).2
            (load_ignore_list ig) t)) =
          docsHtml (sortDocs (collectDocs (rename_japanese_files clock fs).2
            (load_ignore_list ig) [])) := by
      intro t
      rw [← docsHtml_map_eraseTags (sortDocs (collectDocs _ _ t)),
        sortDocs_map_eraseTags, collectDocs_map_eraseTags]
    have h2 : ∀ t : TagsData,
        (collectDocs (rename_japanese_files clock fs).2 (load_ignore_list ig) t).length =
          (collectDocs (rename_japanese_files clock fs).2 (load_ignore_list ig) []).length := by
      intro t
      rw [← collectDocs_map_eraseTags (rename_japanese_files clock fs).2
        (load_ignore_list ig) t, List.length_map]
    rw [h1 t1, h1 t2, h2 t1, h2 t2]
  · intro d
    refine ⟨(ITEM_S1 ++ sortKeyAttr d.sort_key ++ ITEM_S2 ++ d.filename ++ "\" ").data,
      (">\n            <a href=\"" ++ d.path ++ ITEM_S4 ++ d.title ++ ITEM_S5 ++
        fmtDateStr d.date ++ ITEM_S6 ++ (BASE_URL ++ d.path) ++ ITEM_S7).data, ?_⟩
    have hs3 : ITEM_S3 = "\" " ++ "data-tags=\"\"" ++ ">\n            <a href=\"" := by decide
    simp only [docItemHtml, hs3, String.data_append, List.append_assoc]


/-- C3 counterexample: under the registry `{"a.html": ["alpha"]}` the document
collects the tag `alpha`, yet its rendered entry is byte-for-byte the entry
produced under the empty registry, and the tag text `alpha` occurs nowhere in
it — the entry does not embed the document's tags. -/
theorem claim_C3_counterexample :
    (mkDoc [("a.html", ["alpha"])] cEntryC3).tags = ["alpha"]
    ∧ (mkDoc [] cEntryC3).tags = []
    ∧ docItemHtml (mkDoc [("a.html", ["alpha"])] cEntryC3) = docItemHtml (mkDoc [] cEntryC3) :=
  ⟨rfl, rfl, rfl⟩

/-- C3 (amended): the rendered entry embeds the document's title, its sort-key
string `<date>_<two-digit zero-padded sequence>`, and the absolute URL
`BASE_URL ++ path` — but not its tags: the `data-tags` attribute is the
literal empty string (see C10's second part) and the entry is unchanged when
the document's collected tags are dropped. -/
theorem claim_C3_amended : ∀ d : Doc,
    List.IsInfix d.title.data (docItemHtml d).data
    ∧ List.IsInfix (sortKeyAttr d.sort_key).data (docItemHtml d).data
    ∧ sortKeyAttr d.sort_key = d.sort_key.1 ++ "_" ++ padZero 2 d.sort_key.2
    ∧ List.IsInfix (BASE_URL ++ d.path).data (docItemHtml d).data
    ∧ docItemHtml (eraseTags d) = docItemHtml d := by
  intro d
  refine ⟨⟨(ITEM_S1 ++ sortKeyAttr d.sort_key ++ ITEM_S2 ++ d.filename ++ ITEM_S3 ++
      d.path ++ ITEM_S4).data,
      (ITEM_S5 ++ fmtDateStr d.date ++ ITEM_S6 ++ (BASE_URL ++ d.path) ++ ITEM_S7).data, ?_⟩,
    ⟨ITEM_S1.data,
      (ITEM_S2 ++ d.filename ++ ITEM_S3 ++ d.path ++ ITEM_S4 ++ d.title ++ ITEM_S5 ++
        fmtDateStr d.date ++ ITEM_S6 ++ (BASE_URL ++ d.path) ++ ITEM_S7).data, ?_⟩,
    rfl,
    ⟨(ITEM_S1 ++ sortKeyAttr d.sort_key ++ ITEM_S2 ++ d.filename ++ ITEM_S3 ++
      d.path ++ ITEM_S4 ++ d.title ++ ITEM_S5 ++ fmtDateStr d.date ++ ITEM_S6).data,
      ITEM_S7.data, ?_⟩,
    rfl⟩
  all_goals simp only [docItemHtml, String.data_append, List.append_assoc]

/-! ### Lemmas: list plumbing for the extractors -/

theorem takeWhile_append_of_all {p : Char → Bool} :
    ∀ (l r : List Char), l.all p = true →
      List.takeWhile p (l ++ r) = l ++ List.takeWhile p r := by
  intro l
  induction l with
  | nil => intro r _; rfl
  | cons a l ih =>
    intro r hall
    simp only [List.all_cons, Bool.and_eq_true] at hall
    simp [List.takeWhile_cons, hall.1, ih r hall.2]

theorem takeWhile_eq_nil_of_head {p : Char → Bool} (r : List Char)
    (h : ∀ c ∈ r.take 1, p c = false) : r.takeWhile p = [] := by
  cases r with
  | nil => rfl
  | cons a r =>
    have := h a (by simp)
    simp [List.takeWhile_cons, this]

/-- C2: the sort-key extractor returns the literal leading 8-digit date string
paired with the value of the digit run after the underscore (0 when the
underscore group is absent), and `("00000000", 0)` when the filename has no
leading 8-digit prefix; `"20251201_03_report.html"` yields `("20251201", 3)`
and `"report.html"` yields `("00000000", 0)`. -/
theorem claim_C2 :
    (∀ (date seq rest : String),
      date.data.length = 8 → date.data.all Char.isDigit = true →
      ¬ seq.data = [] → seq.data.all Char.isDigit = true →
      (∀ c ∈ rest.data.take 1, c.isDigit = false) →
      get_sort_key_from_filename (date ++ "_" ++ seq ++ rest) =
        (date, digitsToNat seq.data))
    ∧ (∀ (date rest : String),
      date.data.length = 8 → date.data.all Char.isDigit = true →
      (∀ c ∈ rest.data.take 1, c.isDigit = false ∧ ¬ c = '_') →
      get_sort_key_from_filename (date ++ rest) = (date, 0))
    ∧ (∀ fn : String,
      ¬ ((fn.data.take 8).length = 8 ∧ (fn.data.take 8).all Char.isDigit = true) →
      get_sort_key_from_filename fn = ("00000000", 0))
    ∧ get_sort_key_from_filename "20251201_03_report.html" = ("20251201", 3)
    ∧ get_sort_key_from_filename "report.html" = ("00000000", 0) := by
  refine ⟨?_, ?_, ?_, by decide, by decide⟩
  · intro date seq rest hlen hdig hseqne hseqdig hrest
    have hdata : (date ++ "_" ++ seq ++ rest).data =
        date.data ++ '_' :: (seq.data ++ rest.data) := by
      simp [String.data_append]
    have htake : (date.data ++ '_' :: (seq.data ++ rest.data)).take 8 = date.data := by
      rw [← hlen]
      exact List.take_left date.data _
    have hdrop : (date.data ++ '_' :: (seq.data ++ rest.data)).drop 8 =
        '_' :: (seq.data ++ rest.data) := by
      rw [← hlen]
      exact List.drop_left date.data _
    have hdrop9 : (date.data ++ '_' :: (seq.data ++ rest.data)).drop 9 =
        seq.data ++ rest.data := by
      have h1 : (date.data ++ '_' :: (seq.data ++ rest.data)).drop 9 =
          ((date.data ++ '_' :: (seq.data ++ rest.data)).drop 8).drop 1 := by
        rw [List.drop_drop]
      rw [h1, hdrop, List.drop_one, List.tail_cons]
    have hdigits : (seq.data ++ rest.data).takeWhile Char.isDigit = seq.data := by
      rw [takeWhile_append_of_all seq.data rest.data hseqdig,
        takeWhile_eq_nil_of_head rest.data hrest, List.append_nil]
    simp only [get_sort_key_from_filename, hdata, htake, hdrop, hdrop9]
    rw [if_pos ⟨hlen, hdig⟩,
      if_pos (show ('_' :: (seq.data ++ rest.data)).take 1 = ['_'] from rfl),
      hdigits, if_neg hseqne]
  · intro date rest hlen hdig hrest
    have hdata : (date ++ rest).data = date.data ++ rest.data := by
      simp [String.data_append]
    have htake : (date.data ++ rest.data).take 8 = date.data := by
      rw [← hlen]
      exact List.take_left date.data _
    have hdrop : (date.data ++ rest.data).drop 8 = rest.data := by
      rw [← hlen]
      exact List.drop_left date.data _
    have hne : ¬ (rest.data.take 1 = ['_']) := by
      cases hr : rest.data with
      | nil => simp
      | cons c t =>
        have hc := hrest c (by rw [hr]; simp)
        simp [hc.2]
    simp only [get_sort_key_from_filename, hdata, htake, hdrop]
    rw [if_pos ⟨hlen, hdig⟩, if_neg hne]
  · intro fn hcond
    simp only [get_sort_key_from_filename]
    rw [if_neg (by simpa using hcond)]

/-- Witness for C2 at concrete filenames for each of its three general
parts. -/
theorem claim_C2_witness :
    get_sort_key_from_filename ("20250131" ++ "_" ++ "07" ++ "_notes.html") =
      ("20250131", digitsToNat "07".data)
    ∧ get_sort_key_from_filename ("20250131" ++ "report.html") = ("20250131", 0)
    ∧ get_sort_key_from_filename "notes.html" = ("00000000", 0) :=
  ⟨claim_C2.1 "20250131" "07" "_notes.html" (by decide) (by decide) (by decide)
      (by decide) (by decide),
    claim_C2.2.1 "20250131" "report.html" (by decide) (by decide) (by decide),
    claim_C2.2.2.1 "notes.html" (by decide)⟩

/-- C4: when the leading 8 characters are digits but not a valid calendar
date, the filename date parser rejects them, so the document's display date
falls back to the file's mtime, while the sort key still carries the literal
unvalidated 8-digit string — the two are computed independently and
disagree. -/
theorem claim_C4 : ∀ (e : FileEntry) (tags : TagsData),
    (e.name.data.take 8).length = 8 →
    (e.name.data.take 8).all Char.isDigit = true →
    validYmd (digitsToNat ((e.name.data.take 8).take 4))
      (digitsToNat (((e.name.data.take 8).drop 4).take 2))
      (digitsToNat ((e.name.data.take 8).drop 6)) = false →
    get_date_from_filename e.name = none
    ∧ (mkDoc tags e).date = e.mtime
    ∧ (mkDoc tags e).sort_key.1 = String.mk (e.name.data.take 8) := by
  intro e tags hlen hdig hbad
  have hdate : get_date_from_filename e.name = none := by
    simp only [get_date_from_filename]
    rw [if_pos ⟨hlen, hdig⟩, if_neg (by simp [hbad])]
  refine ⟨hdate, ?_, ?_⟩
  · simp only [mkDoc, hdate]
  · show (get_sort_key_from_filename e.name).1 = _
    simp only [get_sort_key_from_filename]
    rw [if_pos ⟨hlen, hdig⟩]
    by_cases h1 : (e.name.data.drop 8).take 1 = ['_']
    · rw [if_pos h1]
      by_cases h2 : (e.name.data.drop 9).takeWhile Char.isDigit = []
      · rw [if_pos h2]
      · rw [if_neg h2]
    · rw [if_neg h1]


/-- Witness for C4 at the spec's own example prefix `20259999`. -/
theorem claim_C4_witness :
    get_date_from_filename cEntryC4.name = none
    ∧ (mkDoc [] cEntryC4).date = cEntryC4.mtime
    ∧ (mkDoc [] cEntryC4).sort_key.1 = String.mk (cEntryC4.name.data.take 8) :=
  claim_C4 cEntryC4 [] (by decide) (by decide) (by decide)

/-- An entry whose stem is pure ASCII survives every step of the rename loop
untouched, and no recorded rename pair names it (beyond pairs already in the
accumulator). -/
theorem renameGo_ascii_invariant (clock : Nat → DateTime) :
    ∀ (snap : List String) (fs : List FileEntry) (t : Nat)
      (acc : List (String × String)) (e : FileEntry),
      e ∈ fs → (pathStem e.name).data.all isAsciiChar = true →
      e ∈ (renameGo clock snap fs t acc).2
      ∧ ∀ p ∈ (renameGo clock snap fs t acc).1, p ∈ acc ∨ ¬ p.1 = e.name := by
  intro snap
  induction snap with
  | nil =>
    intro fs t acc e he hascii
    refine ⟨he, fun p hp => Or.inl ?_⟩
    simp only [renameGo, List.mem_reverse] at hp
    exact hp
  | cons n rest ih =>
    intro fs t acc e he hascii
    simp only [renameGo]
    cases hs : sanitize_filename (clock t) n with
    | none => exact ih fs t acc e he hascii
    | some new_name =>
      have hne : ¬ e.name = n := by
        intro hcontra
        simp only [sanitize_filename] at hs
        rw [← hcontra] at hs
        rw [if_pos hascii] at hs
        exact Option.noConfusion hs
      have he2 : e ∈ renameEntry fs n (resolveCollision (fs.map (·.name)) new_name) := by
        simp only [renameEntry, List.mem_map]
        exact ⟨e, he, by rw [if_neg hne]⟩
      have := ih (renameEntry fs n (resolveCollision (fs.map (·.name)) new_name))
        (t + 1) ((n, resolveCollision (fs.map (·.name)) new_name) :: acc) e he2 hascii
      refine ⟨this.1, fun p hp => ?_⟩
      rcases this.2 p hp with hacc | hne2
      · rcases List.mem_cons.mp hacc with hp1 | hp2
        · refine Or.inr fun hcontra => ?_
          rw [hp1] at hcontra
          exact hne hcontra.symm
        · exact Or.inl hp2
      · exact Or.inr hne2

/-- C5: the sanitizer returns a replacement exactly when the stem is not pure
ASCII; and every file whose stem is pure ASCII survives the rename pass as the
same entry, with no rename pair recorded for it. -/
theorem claim_C5 :
    (∀ (now : DateTime) (fn : String),
      sanitize_filename now fn = none ↔ (pathStem fn).data.all isAsciiChar = true)
    ∧ (∀ (clock : Nat → DateTime) (fs : List FileEntry) (e : FileEntry),
      e ∈ fs → (pathStem e.name).data.all isAsciiChar = true →
      e ∈ (rename_japanese_files clock fs).2
      ∧ ∀ p ∈ (rename_japanese_files clock fs).1, ¬ p.1 = e.name) := by
  constructor
  · intro now fn
    simp only [sanitize_filename]
    constructor
    · intro h
      by_cases hc : (pathStem fn).data.all isAsciiChar = true
      · exact hc
      · rw [if_neg hc] at h
        exact Option.noConfusion h
    · intro h
      rw [if_pos h]
  · intro clock fs e he hascii
    have := renameGo_ascii_invariant clock
      ((fs.filter fun x => endsWithHtml x.name).map (·.name)) fs 0 [] e he hascii
    refine ⟨this.1, fun p hp => ?_⟩
    rcases this.2 p hp with hacc | hne
    · exact absurd hacc (List.not_mem_nil p)
    · exact hne


/-- Witness for C5: the ASCII-stemmed entry survives a pass that renames its
non-ASCII neighbour. -/
theorem claim_C5_witness :
    (cFsC5.get ⟨0, by decide⟩) ∈ (rename_japanese_files (fun _ => ⟨2025, 1, 2, 3, 4, 5⟩) cFsC5).2
    ∧ ∀ p ∈ (rename_japanese_files (fun _ => ⟨2025, 1, 2, 3, 4, 5⟩) cFsC5).1,
        ¬ p.1 = (cFsC5.get ⟨0, by decide⟩).name :=
  claim_C5.2 (fun _ => ⟨2025, 1, 2, 3, 4, 5⟩) cFsC5 (cFsC5.get ⟨0, by decide⟩)
    (by decide) (by decide)

/-! ### Lemmas: collision candidates and path splitting -/

theorem data_mk (l : List Char) : (String.mk l).data = l := rfl

theorem candName_inj (stem ext : String) {k1 k2 : Nat}
    (h : candName stem ext k1 = candName stem ext k2) : k1 = k2 := by
  have hd := congrArg String.data h
  simp only [candName, String.data_append, natRepr, data_mk, List.append_assoc] at hd
  have h1 := List.append_cancel_left hd
  have h2 := List.append_cancel_left h1
  have h3 := List.append_cancel_right h2
  exact natDigits_inj k1 k2 h3

theorem findFreeAux_shape (existing : List String) (stem ext : String) :
    ∀ (fuel k : Nat), ∃ j, k ≤ j ∧
      findFreeAux existing stem ext k fuel = candName stem ext j ∧
      ∀ i, k ≤ i → i < j → candName stem ext i ∈ existing := by
  intro fuel
  induction fuel with
  | zero =>
    intro k
    exact ⟨k, le_refl k, rfl, fun i h1 h2 => absurd h2 (by omega)⟩
  | succ fuel ih =>
    intro k
    simp only [findFreeAux]
    by_cases hc : candName stem ext k ∈ existing
    · rw [if_pos hc]
      obtain ⟨j, hj1, hj2, hj3⟩ := ih (k + 1)
      refine ⟨j, by omega, hj2, fun i h1 h2 => ?_⟩
      by_cases hik : i = k
      · rw [hik]; exact hc
      · exact hj3 i (by omega) h2
    · rw [if_neg hc]
      exact ⟨k, le_refl k, rfl, fun i h1 h2 => absurd h2 (by omega)⟩

theorem findFreeAux_congr (stem ext : String) :
    ∀ (fuel k : Nat) (ex1 ex2 : List String),
      (∀ j, k ≤ j → j < k + fuel →
        (candName stem ext j ∈ ex1 ↔ candName stem ext j ∈ ex2)) →
      findFreeAux ex1 stem ext k fuel = findFreeAux ex2 stem ext k fuel := by
  intro fuel
  induction fuel with
  | zero => intro k ex1 ex2 _; rfl
  | succ fuel ih =>
    intro k ex1 ex2 hiff
    simp only [findFreeAux]
    by_cases hc : candName stem ext k ∈ ex1
    · rw [if_pos hc, if_pos ((hiff k (le_refl k) (by omega)).mp hc)]
      exact ih (k + 1) ex1 ex2 fun j h1 h2 => hiff j (by omega) (by omega)
    · rw [if_neg hc, if_neg (fun hmem => hc ((hiff k (le_refl k) (by omega)).mpr hmem))]

theorem findFreeAux_not_mem (stem ext : String) :
    ∀ (fuel : Nat) (existing : List String) (k : Nat),
      existing.length < fuel → findFreeAux existing stem ext k fuel ∉ existing := by
  intro fuel
  induction fuel with
  | zero => intro existing k h; exact absurd h (by omega)
  | succ fuel ih =>
    intro existing k hlen
    simp only [findFreeAux]
    by_cases hc : candName stem ext k ∈ existing
    · rw [if_pos hc]
      have hlen2 : (existing.erase (candName stem ext k)).length < fuel := by
        have hpos : 0 < existing.length := List.length_pos.mpr (List.ne_nil_of_mem hc)
        rw [List.length_erase_of_mem hc]
        omega
      have hcongr : findFreeAux existing stem ext (k + 1) fuel =
          findFreeAux (existing.erase (candName stem ext k)) stem ext (k + 1) fuel := by
        apply findFreeAux_congr
        intro j hj1 hj2
        have hne : candName stem ext j ≠ candName stem ext k := fun hcand => by
          have := candName_inj stem ext hcand
          omega
        exact (List.mem_erase_of_ne hne).symm
      rw [hcongr]
      intro hmem
      obtain ⟨j, hj1, hj2, _⟩ :=
        findFreeAux_shape (existing.erase (candName stem ext k)) stem ext fuel (k + 1)
      have hnot := ih (existing.erase (candName stem ext k)) (k + 1) hlen2
      rw [hj2] at hmem hnot
      have hne : candName stem ext j ≠ candName stem ext k := fun hcand => by
        have := candName_inj stem ext hcand
        omega
      exact hnot ((List.mem_erase_of_ne hne).mpr hmem)
    · rw [if_neg hc]
      exact hc

theorem resolveCollision_not_mem (existing : List String) (new_name : String) :
    resolveCollision existing new_name ∉ existing := by
  unfold resolveCollision
  by_cases hc : new_name ∈ existing
  · rw [if_pos hc]
    exact findFreeAux_not_mem _ _ (existing.length + 1) existing 1 (by omega)
  · rw [if_neg hc]
    exact hc

theorem resolveCollision_shape (existing : List String) (new_name : String) :
    resolveCollision existing new_name = new_name ∨
      (new_name ∈ existing ∧ ∃ j, 1 ≤ j ∧
        resolveCollision existing new_name =
          candName (pathStem new_name) (pathSuffix new_name) j ∧
        ∀ i, 1 ≤ i → i < j →
          candName (pathStem new_name) (pathSuffix new_name) i ∈ existing) := by
  unfold resolveCollision
  by_cases hc : new_name ∈ existing
  · rw [if_pos hc]
    obtain ⟨j, hj1, hj2, hj3⟩ :=
      findFreeAux_shape existing (pathStem new_name) (pathSuffix new_name)
        (existing.length + 1) 1
    exact Or.inr ⟨hc, j, hj1, hj2, hj3⟩
  · rw [if_neg hc]
    exact Or.inl rfl

theorem rfindDot_append (xs ys : List Char) :
    rfindDot (xs ++ ys) =
      match rfindDot ys with
      | some i => some (xs.length + i)
      | none => rfindDot xs := by
  induction xs with
  | nil =>
    cases h : rfindDot ys <;> simp [h, rfindDot]
  | cons c xs ih =>
    have hstep : rfindDot ((c :: xs) ++ ys) =
        match rfindDot (xs ++ ys) with
        | some i => some (i + 1)
        | none => if c = '.' then some 0 else none := rfl
    rw [hstep, ih]
    cases h : rfindDot ys with
    | some i =>
      show some (xs.length + i + 1) = some ((c :: xs).length + i)
      simp only [List.length_cons]
      congr 1
      omega
    | none => rfl

theorem path_split_html (pre : List Char) (hne : ¬ pre = []) :
    pathStem (String.mk (pre ++ ".html".data)) = String.mk pre
    ∧ pathSuffix (String.mk (pre ++ ".html".data)) = ".html" := by
  have hdotsuffix : rfindDot ".html".data = some 0 := rfl
  have hdot : rfindDot (String.mk (pre ++ ".html".data)).data = some (pre.length + 0) := by
    rw [data_mk, rfindDot_append, hdotsuffix]
  have hpos : 0 < pre.length := List.length_pos.mpr hne
  have hlt : pre.length + 0 + 1 < (String.mk (pre ++ ".html".data)).data.length := by
    rw [data_mk, List.length_append]
    have : (".html".data).length = 5 := rfl
    omega
  constructor
  · simp only [pathStem, hdot]
    rw [if_pos ⟨by omega, hlt⟩]
    apply String.ext
    rw [data_mk, data_mk, Nat.add_zero]
    exact List.take_left pre _
  · simp only [pathSuffix, hdot]
    rw [if_pos ⟨by omega, hlt⟩]
    apply String.ext
    rw [data_mk, data_mk, Nat.add_zero]
    exact List.drop_left pre _

theorem padZero_chars (w n : Nat) :
    ∀ c ∈ (padZero w n).data, 48 ≤ c.toNat ∧ c.toNat ≤ 57 := by
  intro c hc
  simp only [padZero, data_mk] at hc
  rcases List.mem_append.mp hc with h | h
  · have h0 : c = '0' := List.eq_of_mem_replicate h
    rw [h0]
    decide
  · exact natDigits_toNat_bounds n c h

theorem fmtTimestamp_chars (t : DateTime) :
    ∀ c ∈ (fmtTimestamp t).data, (48 ≤ c.toNat ∧ c.toNat ≤ 57) ∨ c = '-' := by
  intro c hc
  have hdash : ("-" : String).data = ['-'] := rfl
  simp only [fmtTimestamp, String.data_append, List.mem_append, hdash,
    List.mem_singleton] at hc
  rcases hc with ((((((h | h) | h) | h) | h) | h) | h)
  · exact Or.inl (padZero_chars 4 t.year c h)
  · exact Or.inl (padZero_chars 2 t.month c h)
  · exact Or.inl (padZero_chars 2 t.day c h)
  · exact Or.inr h
  · exact Or.inl (padZero_chars 2 t.hour c h)
  · exact Or.inl (padZero_chars 2 t.minute c h)
  · exact Or.inl (padZero_chars 2 t.second c h)

theorem bstem_chars (t : DateTime) :
    ∀ c ∈ ("doc-" ++ fmtTimestamp t).data, isAsciiChar c = true ∧ ¬ c = '.' := by
  intro c hc
  rw [String.data_append] at hc
  rcases List.mem_append.mp hc with h | h
  · have hall : ∀ x ∈ ("doc-" : String).data, isAsciiChar x = true ∧ ¬ x = '.' := by decide
    exact hall c h
  · rcases fmtTimestamp_chars t c h with ⟨h1, h2⟩ | h3
    · constructor
      · simp only [isAsciiChar, decide_eq_true_eq]
        omega
      · intro he
        rw [he] at h1
        exact absurd h1 (by decide)
    · rw [h3]
      exact ⟨by decide, by decide⟩

theorem bstem_ne_nil (t : DateTime) : ¬ ("doc-" ++ fmtTimestamp t).data = [] := by
  rw [String.data_append]
  intro h
  have h2 : ("doc-" : String).data = [] := (List.append_eq_nil.mp h).1
  exact absurd h2 (by decide)

/-- C6: sanitizing a non-ASCII-stemmed `*.html` file yields
`doc-<timestamp>.html`; the collision loop returns the base name or appends
`-1`, `-2`, … scanning strictly increasing from 1 (every earlier candidate
being taken), the chosen target never coincides with an existing file (no
overwrite), and its stem is pure ASCII. -/
theorem claim_C6 : ∀ (now : DateTime) (fn : String) (existing : List String),
    endsWithHtml fn = true →
    (pathStem fn).data.all isAsciiChar = false →
    sanitize_filename now fn = some ("doc-" ++ fmtTimestamp now ++ ".html")
    ∧ resolveCollision existing ("doc-" ++ fmtTimestamp now ++ ".html") ∉ existing
    ∧ (pathStem (resolveCollision existing
        ("doc-" ++ fmtTimestamp now ++ ".html"))).data.all isAsciiChar = true
    ∧ (resolveCollision existing ("doc-" ++ fmtTimestamp now ++ ".html") =
          "doc-" ++ fmtTimestamp now ++ ".html"
       ∨ ("doc-" ++ fmtTimestamp now ++ ".html") ∈ existing ∧
         ∃ j, 1 ≤ j ∧
           resolveCollision existing ("doc-" ++ fmtTimestamp now ++ ".html") =
             "doc-" ++ fmtTimestamp now ++ "-" ++ natRepr j ++ ".html"
           ∧ ∀ i, 1 ≤ i → i < j →
               "doc-" ++ fmtTimestamp now ++ "-" ++ natRepr i ++ ".html" ∈ existing) := by
  intro now fn existing hhtml hstem
  have hhtml2 := hhtml
  simp only [endsWithHtml, Bool.and_eq_true, decide_eq_true_eq] at hhtml2
  have hlen5 : 5 < fn.data.length := by
    rcases Nat.lt_or_ge 5 fn.data.length with h | h
    · exact h
    · exfalso
      have hlen : fn.data.length = 5 := by omega
      have hfn : fn = ".html" := by
        apply String.ext
        have := hhtml2.2
        rw [hlen] at this
        simpa using this
      rw [hfn] at hstem
      exact absurd hstem (by decide)
  have hfdata : fn.data = fn.data.take (fn.data.length - 5) ++ ".html".data := by
    conv_lhs => rw [← List.take_append_drop (fn.data.length - 5) fn.data]
    rw [hhtml2.2]
  have hprene : ¬ fn.data.take (fn.data.length - 5) = [] := by
    intro h
    have := congrArg List.length h
    simp only [List.length_take, List.length_nil] at this
    omega
  have hfneq : fn = String.mk (fn.data.take (fn.data.length - 5) ++ ".html".data) :=
    String.ext hfdata
  have hsuf : pathSuffix fn = ".html" := by
    rw [hfneq]
    exact (path_split_html (fn.data.take (fn.data.length - 5)) hprene).2
  have hsan : sanitize_filename now fn = some ("doc-" ++ fmtTimestamp now ++ ".html") := by
    simp only [sanitize_filename]
    rw [if_neg (by simp [hstem]), hsuf]
  have hbsplit : ("doc-" ++ fmtTimestamp now ++ ".html" : String) =
      String.mk (("doc-" ++ fmtTimestamp now).data ++ ".html".data) := by
    apply String.ext
    simp [String.data_append]
  have hbstem : pathStem ("doc-" ++ fmtTimestamp now ++ ".html") =
      "doc-" ++ fmtTimestamp now := by
    rw [hbsplit]
    have h := (path_split_html ("doc-" ++ fmtTimestamp now).data (bstem_ne_nil now)).1
    rw [h]
  have hbsuf : pathSuffix ("doc-" ++ fmtTimestamp now ++ ".html") = ".html" := by
    rw [hbsplit]
    exact (path_split_html ("doc-" ++ fmtTimestamp now).data (bstem_ne_nil now)).2
  have hcand : ∀ j : Nat,
      candName (pathStem ("doc-" ++ fmtTimestamp now ++ ".html"))
        (pathSuffix ("doc-" ++ fmtTimestamp now ++ ".html")) j =
        "doc-" ++ fmtTimestamp now ++ "-" ++ natRepr j ++ ".html" := by
    intro j
    rw [candName, hbstem, hbsuf]
  have hcandstem : ∀ j : Nat,
      pathStem ("doc-" ++ fmtTimestamp now ++ "-" ++ natRepr j ++ ".html") =
        String.mk ((("doc-" ++ fmtTimestamp now).data ++ ['-']) ++ natDigits j) := by
    intro j
    have hsplit : ("doc-" ++ fmtTimestamp now ++ "-" ++ natRepr j ++ ".html" : String) =
        String.mk (((("doc-" ++ fmtTimestamp now).data ++ ['-']) ++ natDigits j) ++
          ".html".data) := by
      apply String.ext
      simp [String.data_append, natRepr, data_mk]
    rw [hsplit]
    apply (path_split_html _ ?_).1
    intro h
    have h2 : ("doc-" ++ fmtTimestamp now).data ++ ['-'] = [] :=
      (List.append_eq_nil.mp h).1
    have h3 := (List.append_eq_nil.mp h2).2
    exact absurd h3 (by decide)
  refine ⟨hsan, resolveCollision_not_mem existing _, ?_, ?_⟩
  · rcases resolveCollision_shape existing ("doc-" ++ fmtTimestamp now ++ ".html")
      with hres | ⟨hmem, j, hj1, hres, hall⟩
    · rw [hres, hbstem]
      rw [List.all_eq_true]
      intro c hc
      exact (bstem_chars now c hc).1
    · rw [hres, hcand j, hcandstem j]
      rw [data_mk, List.all_eq_true]
      intro c hc
      rcases List.mem_append.mp hc with h | h
      · rcases List.mem_append.mp h with h2 | h2
        · exact (bstem_chars now c h2).1
        · rw [List.mem_singleton.mp h2]
          decide
      · exact natDigits_all_ascii j c h
  · rcases resolveCollision_shape existing ("doc-" ++ fmtTimestamp now ++ ".html")
      with hres | ⟨hmem, j, hj1, hres, hall⟩
    · exact Or.inl hres
    · refine Or.inr ⟨hmem, j, hj1, ?_, ?_⟩
      · rw [hres, hcand j]
      · intro i hi1 hij
        have := hall i hi1 hij
        rw [hcand i] at this
        exact this

/-- Witness for C6: a non-ASCII filename whose base and `-1` candidates are
both taken, so the scan lands on `-2`. -/
theorem claim_C6_witness :
    sanitize_filename ⟨2025, 1, 2, 3, 4, 5⟩ "あ.html" =
      some ("doc-" ++ fmtTimestamp ⟨2025, 1, 2, 3, 4, 5⟩ ++ ".html")
    ∧ resolveCollision
        ["doc-20250102-030405.html", "doc-20250102-030405-1.html", "x.html"]
        ("doc-" ++ fmtTimestamp ⟨2025, 1, 2, 3, 4, 5⟩ ++ ".html") ∉
        ["doc-20250102-030405.html", "doc-20250102-030405-1.html", "x.html"]
    ∧ (pathStem (resolveCollision
        ["doc-20250102-030405.html", "doc-20250102-030405-1.html", "x.html"]
        ("doc-" ++ fmtTimestamp ⟨2025, 1, 2, 3, 4, 5⟩ ++ ".html"))).data.all
          isAsciiChar = true
    ∧ (resolveCollision
          ["doc-20250102-030405.html", "doc-20250102-030405-1.html", "x.html"]
          ("doc-" ++ fmtTimestamp ⟨2025, 1, 2, 3, 4, 5⟩ ++ ".html") =
            "doc-" ++ fmtTimestamp ⟨2025, 1, 2, 3, 4, 5⟩ ++ ".html"
       ∨ ("doc-" ++ fmtTimestamp ⟨2025, 1, 2, 3, 4, 5⟩ ++ ".html") ∈
          ["doc-20250102-030405.html", "doc-20250102-030405-1.html", "x.html"] ∧
         ∃ j, 1 ≤ j ∧
           resolveCollision
             ["doc-20250102-030405.html", "doc-20250102-030405-1.html", "x.html"]
             ("doc-" ++ fmtTimestamp ⟨2025, 1, 2, 3, 4, 5⟩ ++ ".html") =
               "doc-" ++ fmtTimestamp ⟨2025, 1, 2, 3, 4, 5⟩ ++ "-" ++ natRepr j ++ ".html"
           ∧ ∀ i, 1 ≤ i → i < j →
               ("doc-" ++ fmtTimestamp ⟨2025, 1, 2, 3, 4, 5⟩ ++ "-" ++ natRepr i ++ ".html") ∈
                 ["doc-20250102-030405.html", "doc-20250102-030405-1.html", "x.html"]) :=
  claim_C6 ⟨2025, 1, 2, 3, 4, 5⟩ "あ.html"
    ["doc-20250102-030405.html", "doc-20250102-030405-1.html", "x.html"]
    (by decide) (by decide)

/-! ### Lemmas: leftmost-match characterizations for the title regexes -/

theorem isPrefixOf_nil_eq (pat : List Char) :
    pat.isPrefixOf ([] : List Char) = pat.isEmpty := by
  cases pat <;> rfl

theorem findSubstrIdx_some_iff (pat : List Char) :
    ∀ (cs : List Char) (i : Nat),
      findSubstrIdx pat cs = some i ↔
        (pat.isPrefixOf (cs.drop i) = true ∧
          ∀ i2, i2 < i → ¬ pat.isPrefixOf (cs.drop i2) = true) := by
  intro cs
  induction cs with
  | nil =>
    intro i
    simp only [findSubstrIdx]
    by_cases hp : pat.isEmpty = true
    · rw [if_pos hp]
      constructor
      · intro h
        have hi : i = 0 := (Option.some.inj h).symm
        subst hi
        refine ⟨?_, fun i2 h2 => absurd h2 (by omega)⟩
        rw [List.drop_nil, isPrefixOf_nil_eq]
        exact hp
      · rintro ⟨h1, h2⟩
        by_cases hi : i = 0
        · rw [hi]
        · exfalso
          apply h2 0 (by omega)
          rw [List.drop_nil, isPrefixOf_nil_eq]
          exact hp
    · rw [if_neg hp]
      constructor
      · intro h
        exact absurd h (by simp)
      · rintro ⟨h1, h2⟩
        exfalso
        rw [List.drop_nil, isPrefixOf_nil_eq] at h1
        exact hp h1
  | cons c rest ih =>
    intro i
    simp only [findSubstrIdx]
    by_cases hp : pat.isPrefixOf (c :: rest) = true
    · rw [if_pos hp]
      constructor
      · intro h
        have hi : i = 0 := (Option.some.inj h).symm
        subst hi
        exact ⟨hp, fun i2 h2 => absurd h2 (by omega)⟩
      · rintro ⟨h1, h2⟩
        by_cases hi : i = 0
        · rw [hi]
        · exact absurd hp (h2 0 (by omega))
    · rw [if_neg hp]
      constructor
      · intro h
        obtain ⟨i2, hi2, hmap⟩ := Option.map_eq_some'.mp h
        subst hmap
        have hih := (ih i2).mp hi2
        refine ⟨?_, ?_⟩
        · simpa [List.drop_succ_cons] using hih.1
        · intro i3 h3
          cases i3 with
          | zero => simpa using hp
          | succ k =>
            have := hih.2 k (by omega)
            simpa [List.drop_succ_cons] using this
      · rintro ⟨h1, h2⟩
        cases i with
        | zero => exact absurd (by simpa using h1) hp
        | succ k =>
          apply Option.map_eq_some'.mpr
          refine ⟨k, (ih k).mpr ⟨?_, ?_⟩, rfl⟩
          · simpa [List.drop_succ_cons] using h1
          · intro i2 hi2
            have := h2 (i2 + 1) (by omega)
            simpa [List.drop_succ_cons] using this

theorem findSubstrIdx_none_iff (pat : List Char) :
    ∀ cs : List Char,
      findSubstrIdx pat cs = none ↔ ∀ i, ¬ pat.isPrefixOf (cs.drop i) = true := by
  intro cs
  induction cs with
  | nil =>
    simp only [findSubstrIdx]
    by_cases hp : pat.isEmpty = true
    · rw [if_pos hp]
      constructor
      · intro h
        exact absurd h (by simp)
      · intro h
        exfalso
        apply h 0
        rw [List.drop_nil, isPrefixOf_nil_eq]
        exact hp
    · rw [if_neg hp]
      refine ⟨fun _ i => ?_, fun _ => rfl⟩
      rw [List.drop_nil, isPrefixOf_nil_eq]
      exact fun hc => hp hc
  | cons c rest ih =>
    simp only [findSubstrIdx]
    by_cases hp : pat.isPrefixOf (c :: rest) = true
    · rw [if_pos hp]
      constructor
      · intro h
        exact absurd h (by simp)
      · intro h
        exact absurd hp (h 0)
    · rw [if_neg hp]
      constructor
      · intro h i
        cases i with
        | zero => simpa using hp
        | succ k =>
          have hnone : findSubstrIdx pat rest = none := by
            cases hfs : findSubstrIdx pat rest with
            | none => rfl
            | some v => rw [hfs] at h; exact absurd h (by simp)
          have := ih.mp hnone k
          simpa [List.drop_succ_cons] using this
      · intro h
        have hnone : findSubstrIdx pat rest = none := by
          apply ih.mpr
          intro i
          have := h (i + 1)
          simpa [List.drop_succ_cons] using this
        rw [hnone]
        rfl

theorem findGtIdx_some_iff :
    ∀ (l : List Char) (n : Nat),
      findGtIdx l = some n ↔
        ((l.drop n).take 1 = ['>'] ∧ ∀ q, q < n → ¬ (l.drop q).take 1 = ['>']) := by
  intro l
  induction l with
  | nil =>
    intro n
    simp only [findGtIdx]
    constructor
    · intro h
      exact absurd h (by simp)
    · rintro ⟨h1, _⟩
      rw [List.drop_nil] at h1
      exact absurd h1 (by simp)
  | cons c rest ih =>
    intro n
    simp only [findGtIdx]
    by_cases hc : c = '>'
    · rw [if_pos hc]
      constructor
      · intro h
        have hn : n = 0 := (Option.some.inj h).symm
        subst hn
        refine ⟨?_, fun q hq => absurd hq (by omega)⟩
        rw [List.drop_zero, hc]
        rfl
      · rintro ⟨h1, h2⟩
        by_cases hn : n = 0
        · rw [hn]
        · exfalso
          apply h2 0 (by omega)
          rw [List.drop_zero, hc]
          rfl
    · rw [if_neg hc]
      constructor
      · intro h
        obtain ⟨n2, hn2, hmap⟩ := Option.map_eq_some'.mp h
        subst hmap
        have hih := (ih n2).mp hn2
        refine ⟨by simpa [List.drop_succ_cons] using hih.1, ?_⟩
        intro q hq
        cases q with
        | zero =>
          rw [List.drop_zero]
          intro hcontra
          have : c = '>' := by
            have := List.cons.injEq c (rest.take 0) '>' [] ▸ hcontra
            simpa using hcontra
          exact hc this
        | succ k =>
          have := hih.2 k (by omega)
          simpa [List.drop_succ_cons] using this
      · rintro ⟨h1, h2⟩
        cases n with
        | zero =>
          exfalso
          rw [List.drop_zero] at h1
          have : c = '>' := by simpa using h1
          exact hc this
        | succ k =>
          apply Option.map_eq_some'.mpr
          refine ⟨k, (ih k).mpr ⟨by simpa [List.drop_succ_cons] using h1, ?_⟩, rfl⟩
          intro q hq
          have := h2 (q + 1) (by omega)
          simpa [List.drop_succ_cons] using this

theorem findGtIdx_none_iff :
    ∀ l : List Char,
      findGtIdx l = none ↔ ∀ q, ¬ (l.drop q).take 1 = ['>'] := by
  intro l
  induction l with
  | nil =>
    simp only [findGtIdx]
    refine ⟨fun _ q => ?_, fun _ => trivial⟩
    rw [List.drop_nil]
    simp
  | cons c rest ih =>
    simp only [findGtIdx]
    by_cases hc : c = '>'
    · rw [if_pos hc]
      constructor
      · intro h
        exact absurd h (by simp)
      · intro h
        exfalso
        apply h 0
        rw [List.drop_zero, hc]
        rfl
    · rw [if_neg hc]
      constructor
      · intro h q
        cases q with
        | zero =>
          rw [List.drop_zero]
          intro hcontra
          exact hc (by simpa using hcontra)
        | succ k =>
          have hnone : findGtIdx rest = none := by
            cases hfs : findGtIdx rest with
            | none => rfl
            | some v => rw [hfs] at h; exact absurd h (by simp)
          have := ih.mp hnone k
          simpa [List.drop_succ_cons] using this
      · intro h
        have hnone : findGtIdx rest = none := by
          apply ih.mpr
          intro q
          have := h (q + 1)
          simpa [List.drop_succ_cons] using this
        rw [hnone]
        rfl


theorem lowerList_drop (cs : List Char) (n : Nat) :
    (lowerList cs).drop n = lowerList (cs.drop n) :=
  (List.map_drop Char.toLower cs n).symm

theorem titleTagGroup_of_span {cs : List Char} {i j : Nat}
    (h : firstTitleSpan cs i j) :
    titleTagGroup cs = some (titleSpanGroup cs i j) := by
  obtain ⟨hopen, hmin, hle, hclose, hminc⟩ := h
  have h1 : findSubstrIdx "<title>".data (lowerList cs) = some i :=
    (findSubstrIdx_some_iff _ _ _).mpr ⟨hopen, fun i2 h2 => hmin i2 h2⟩
  have h2 : findSubstrIdx "</title>".data ((lowerList cs).drop (i + 7)) =
      some (j - (i + 7)) := by
    apply (findSubstrIdx_some_iff _ _ _).mpr
    constructor
    · rw [List.drop_drop]
      have harith : i + 7 + (j - (i + 7)) = j := by omega
      rw [harith]
      exact hclose
    · intro r hr
      rw [List.drop_drop]
      exact hminc (i + 7 + r) (by omega) (by omega)
  simp only [titleTagGroup, h1, h2, titleSpanGroup]

theorem titleTagGroup_some_span {cs : List Char} {t : List Char}
    (hg : titleTagGroup cs = some t) : ∃ i j, firstTitleSpan cs i j := by
  simp only [titleTagGroup] at hg
  split at hg
  · exact absurd hg (by simp)
  · rename_i i h1
    split at hg
    · exact absurd hg (by simp)
    · rename_i r h2
      have hh1 := (findSubstrIdx_some_iff _ _ _).mp h1
      have hh2 := (findSubstrIdx_some_iff _ _ _).mp h2
      refine ⟨i, i + 7 + r, hh1.1, fun i2 hi2 => hh1.2 i2 hi2, by omega, ?_, ?_⟩
      · have := hh2.1
        rw [List.drop_drop] at this
        exact this
      · intro j2 hj2 hj2b
        have := hh2.2 (j2 - (i + 7)) (by omega)
        rw [List.drop_drop] at this
        have harith : i + 7 + (j2 - (i + 7)) = j2 := by omega
        rw [harith] at this
        exact this

theorem titleTagGroup_of_no_span {cs : List Char}
    (h : ∀ i j, ¬ firstTitleSpan cs i j) : titleTagGroup cs = none := by
  cases hg : titleTagGroup cs with
  | none => rfl
  | some t =>
    obtain ⟨i, j, hspan⟩ := titleTagGroup_some_span hg
    exact absurd hspan (h i j)

theorem h1Group_of_span {cs : List Char} {i p j : Nat}
    (h : firstH1Span cs i p j) : h1Group cs = some (h1SpanGroup cs p j) := by
  obtain ⟨hopen, hmin, hil, hgt, hming, hpl, hclose, hminc⟩ := h
  have h1 : findSubstrIdx "<h1".data (lowerList cs) = some i :=
    (findSubstrIdx_some_iff _ _ _).mpr ⟨hopen, fun i2 h2 => hmin i2 h2⟩
  have h2 : findGtIdx (cs.drop (i + 3)) = some (p - (i + 3)) := by
    apply (findGtIdx_some_iff _ _).mpr
    constructor
    · rw [List.drop_drop]
      have harith : i + 3 + (p - (i + 3)) = p := by omega
      rw [harith]
      exact hgt
    · intro q hq
      rw [List.drop_drop]
      exact hming (i + 3 + q) (by omega) (by omega)
  have h3 : findSubstrIdx "</h1>".data ((lowerList cs).drop (i + 3 + (p - (i + 3)) + 1)) =
      some (j - (p + 1)) := by
    have habs : i + 3 + (p - (i + 3)) + 1 = p + 1 := by omega
    rw [habs]
    apply (findSubstrIdx_some_iff _ _ _).mpr
    constructor
    · rw [List.drop_drop]
      have harith : p + 1 + (j - (p + 1)) = j := by omega
      rw [harith]
      exact hclose
    · intro r hr
      rw [List.drop_drop]
      exact hminc (p + 1 + r) (by omega) (by omega)
  simp only [h1Group, h1, h2, h3, h1SpanGroup]
  have habs : i + 3 + (p - (i + 3)) + 1 = p + 1 := by omega
  rw [habs]

theorem h1Group_some_span {cs : List Char} {t : List Char}
    (hg : h1Group cs = some t) : ∃ i p j, firstH1Span cs i p j := by
  simp only [h1Group] at hg
  split at hg
  · exact absurd hg (by simp)
  · rename_i i h1
    split at hg
    · exact absurd hg (by simp)
    · rename_i q h2
      split at hg
      · exact absurd hg (by simp)
      · rename_i r h3
        have hh1 := (findSubstrIdx_some_iff _ _ _).mp h1
        have hh2 := (findGtIdx_some_iff _ _).mp h2
        have hh3 := (findSubstrIdx_some_iff _ _ _).mp h3
        refine ⟨i, i + 3 + q, i + 3 + q + 1 + r,
          hh1.1, fun i2 hi2 => hh1.2 i2 hi2, by omega, ?_, ?_, by omega, ?_, ?_⟩
        · have := hh2.1
          rw [List.drop_drop] at this
          exact this
        · intro q2 hq2 hq2b
          have := hh2.2 (q2 - (i + 3)) (by omega)
          rw [List.drop_drop] at this
          have harith : i + 3 + (q2 - (i + 3)) = q2 := by omega
          rw [harith] at this
          exact this
        · have := hh3.1
          rw [List.drop_drop] at this
          exact this
        · intro j2 hj2 hj2b
          have := hh3.2 (j2 - (i + 3 + q + 1)) (by omega)
          rw [List.drop_drop] at this
          have harith : i + 3 + q + 1 + (j2 - (i + 3 + q + 1)) = j2 := by omega
          rw [harith] at this
          exact this

theorem h1Group_of_no_span {cs : List Char}
    (h : ∀ i p j, ¬ firstH1Span cs i p j) : h1Group cs = none := by
  cases hg : h1Group cs with
  | none => rfl
  | some t =>
    obtain ⟨i, p, j, hspan⟩ := h1Group_some_span hg
    exact absurd hspan (h i p j)

/-- C7: the title extractor is a total function of the read outcome (a read
failure yields the filename stem), and its precedence is fixed: the first
`<title>` element's stripped content when non-empty, else the first
`<h1>` element's text with inner markup removed when non-empty, else the
stem. -/
theorem claim_C7 : ∀ (content : Option String) (stem : String),
    (content = none → get_html_title content stem = stem)
    ∧ (∀ c : String, content = some c →
        (∀ i j, firstTitleSpan c.data i j →
          (¬ pyStrip (titleSpanGroup c.data i j) = [] →
            get_html_title content stem = String.mk (pyStrip (titleSpanGroup c.data i j)))
          ∧ (pyStrip (titleSpanGroup c.data i j) = [] →
            get_html_title content stem = h1Fallback c.data stem))
        ∧ ((∀ i j, ¬ firstTitleSpan c.data i j) →
            get_html_title content stem = h1Fallback c.data stem)
        ∧ (∀ i p j, firstH1Span c.data i p j →
          (¬ pyStrip (stripHtmlTags (h1SpanGroup c.data p j)) = [] →
            h1Fallback c.data stem =
              String.mk (pyStrip (stripHtmlTags (h1SpanGroup c.data p j))))
          ∧ (pyStrip (stripHtmlTags (h1SpanGroup c.data p j)) = [] →
            h1Fallback c.data stem = stem))
        ∧ ((∀ i p j, ¬ firstH1Span c.data i p j) → h1Fallback c.data stem = stem)) := by
  intro content stem
  refine ⟨fun h => by rw [h]; rfl, fun c hc => ⟨?_, ?_, ?_, ?_⟩⟩
  · intro i j hspan
    have hg := titleTagGroup_of_span hspan
    subst hc
    constructor
    · intro hne
      simp only [get_html_title, hg]
      rw [if_neg hne]
    · intro he
      simp only [get_html_title, hg]
      rw [if_pos he]
  · intro hnone
    have hg := titleTagGroup_of_no_span hnone
    subst hc
    simp only [get_html_title, hg]
  · intro i p j hspan
    have hg := h1Group_of_span hspan
    constructor
    · intro hne
      simp only [h1Fallback, hg]
      rw [if_neg hne]
    · intro he
      simp only [h1Fallback, hg]
      rw [if_pos he]
  · intro hnone
    have hg := h1Group_of_no_span hnone
    simp only [h1Fallback, hg]

/-- Witness for C7: a title tag wins over an earlier heading; no markup falls
back to the stem; the heading fallback strips inner markup. -/
theorem claim_C7_witness :
    get_html_title (some "<h1>Z</h1><title> T </title>") "fb" = "T"
    ∧ get_html_title (some "no markup") "fb" = "fb"
    ∧ h1Fallback "<h1 a=b>Hi <i>x</i></h1>".data "fb" = "Hi x" := by
  refine ⟨?_, ?_, ?_⟩
  · have h := (((claim_C7 (some "<h1>Z</h1><title> T </title>") "fb").2
      "<h1>Z</h1><title> T </title>" rfl).1 10 20 (by decide)).1 (by decide)
    rw [h]
    decide
  · have hnot : ∀ i j, ¬ firstTitleSpan "no markup".data i j := by
      intro i j hspan
      exact (findSubstrIdx_none_iff "<title>".data
        (lowerList "no markup".data)).mp (by decide) i hspan.1
    have hn1 : ∀ i p j, ¬ firstH1Span "no markup".data i p j := by
      intro i p j hspan
      exact (findSubstrIdx_none_iff "<h1".data
        (lowerList "no markup".data)).mp (by decide) i hspan.1
    have h1 := ((claim_C7 (some "no markup") "fb").2 "no markup" rfl).2.1 hnot
    have h2 := ((claim_C7 (some "no markup") "fb").2 "no markup" rfl).2.2.2 hn1
    rw [h1, h2]
  · have h := (((claim_C7 (some "<h1 a=b>Hi <i>x</i></h1>") "fb").2
      "<h1 a=b>Hi <i>x</i></h1>" rfl).2.2.1 0 7 19 (by decide)).1 (by decide)
    rw [h]
    decide

end GenIndex
